import Mathlib

/-!
# Verification of the reconciler core

A shallow embedding of the priority-tiered update queue
(`react-reconciler/src/ReactFiberRoot.js`), the child-list reconciler
(`react-reconciler/src/ReactChildFiber.js`), and the hydration matcher
(`react-reconciler/src/ReactFiberHydrationContext.old.js`), together with
proofs and refutations of the specification's claims about them.

Conventions used throughout:
* JavaScript linked lists (`firstBaseUpdate .. lastBaseUpdate`, sibling
  chains) are modelled as Lean `List`s in the same order.
* Bit-mask integers (lanes, fiber flags, mode bits) are `Nat`s combined with
  `&&&`/`|||`/`^^^`.  Since `Nat` has no complement, `a & ~b` is written
  `a ^^^ (a &&& b)` (same bits cleared).
* Mutation is modelled by returning updated copies of the mutated records.
* `__DEV__`-only code (warnings, debug info) is omitted: the embedding is of
  the production behaviour.
-/

namespace ReactM

/-! ## Lanes (priority tiers) and fiber flags

The lane and flag modules are external to the three embedded files; only the
operations below are used by them.  The flag bit values are arbitrary
distinct powers of two. -/

def NoLane : Nat := 0
def NoLanes : Nat := 0
/-- The extra bit added to updates made inside a hidden (Offscreen) tree. -/
def OffscreenLane : Nat := 1 <<< 30

/-- `isSubsetOfLanes set subset` is `(set & subset) === subset`. -/
def isSubsetOfLanes (set subset : Nat) : Bool := (set &&& subset) == subset

def mergeLanes (a b : Nat) : Nat := a ||| b

/-- `removeLanes set subset` is `set & ~subset`; expressed with `^^^` because
`Nat` has no bitwise complement (the two agree bit for bit). -/
def removeLanes (set subset : Nat) : Nat := set ^^^ (set &&& subset)

def Placement : Nat := 2
def ChildDeletion : Nat := 16
def Callback : Nat := 64
def DidCapture : Nat := 128
def ShouldCapture : Nat := 8192
def Visibility : Nat := 16384
def Hydrating : Nat := 4096
def Forked : Nat := 1 <<< 20
def PlacementDEV : Nat := 1 <<< 26

def NoMode : Nat := 0
def ConcurrentMode : Nat := 1

/-! ## The update queue (`ReactFiberRoot.js`) -/

/-- The four update tags of `getStateFromUpdate`. -/
inductive UpdateTag where
  | updateState
  | replaceState
  | forceUpdate
  | captureUpdate
  deriving DecidableEq, Repr

/-- An update's `payload`: either an updater function of the previous state
(the `props`/`instance` arguments are fixed by the caller and folded into the
function) or a plain value. -/
inductive Payload (σ : Type) where
  | fn (f : σ → σ)
  | obj (v : σ)

/-- Evaluating a payload against the previous state
(`typeof payload === 'function' ? payload.call(instance, prevState, nextProps) : payload`). -/
def Payload.eval {σ : Type} (p : Payload σ) (prevState : σ) : σ :=
  match p with
  | .fn f => f prevState
  | .obj v => v

/-- One update record.  `callback` records whether a callback is attached
(the callback body itself is external).  `id` models JavaScript object
identity of the allocated record; it is consulted only by the pending-queue
transfer, which compares list nodes with `!==`. -/
structure Update (σ : Type) where
  lane : Nat
  tag : UpdateTag
  payload : Payload σ
  callback : Bool
  id : Nat

/-- The per-fiber update queue.  `baseUpdates` is the
`firstBaseUpdate .. lastBaseUpdate` singly-linked list; `sharedPending` is
the `shared.pending` circular list written out in insertion order (the
circular pointer structure only encodes that order).  The `callbacks` array
is not modelled: no claim concerns it. -/
structure UpdateQueue (σ : Type) where
  baseState : σ
  baseUpdates : List (Update σ)
  sharedPending : List (Update σ)

/-- The slice of a fiber that `processUpdateQueue` reads and writes. -/
structure FiberQ (σ : Type) where
  flags : Nat
  lanes : Nat
  memoizedState : σ
  queue : UpdateQueue σ

/-- External JavaScript primitives used by `getStateFromUpdate`:
`assign prev partial` is `Object.assign({}, prevState, partialState)` and
`isNull v` is `v === null || v === undefined`. -/
structure JsOps (σ : Type) where
  assign : σ → σ → σ
  isNull : σ → Bool

/-- `getStateFromUpdate` (state, fiber flags and the `hasForceUpdate`
module variable; the queue's callback list is untouched here). -/
def getStateFromUpdate {σ : Type} (J : JsOps σ) (update : Update σ)
    (prevState : σ) (flags : Nat) (hasForceUpdate : Bool) :
    σ × Nat × Bool :=
  match update.tag with
  | .replaceState =>
      (update.payload.eval prevState, flags, hasForceUpdate)
  | .captureUpdate =>
      -- flags = (flags & ~ShouldCapture) | DidCapture, then fall through to
      -- UpdateState merge semantics.
      let flags' := removeLanes flags ShouldCapture ||| DidCapture
      let partialState := update.payload.eval prevState
      if J.isNull partialState then (prevState, flags', hasForceUpdate)
      else (J.assign prevState partialState, flags', hasForceUpdate)
  | .updateState =>
      let partialState := update.payload.eval prevState
      if J.isNull partialState then (prevState, flags, hasForceUpdate)
      else (J.assign prevState partialState, flags, hasForceUpdate)
  | .forceUpdate =>
      (prevState, flags, true)

/-- The state component of `getStateFromUpdate` alone. -/
def applyUpdate {σ : Type} (J : JsOps σ) (s : σ) (u : Update σ) : σ :=
  (getStateFromUpdate J u s 0 false).1

/-- Parameters of one `processUpdateQueue` call: the JS primitives, the
`renderLanes` argument, `getWorkInProgressRootRenderLanes()` and
`peekEntangledActionLane()` (the latter two are external module state read
during the pass). -/
structure PassParams (σ : Type) where
  J : JsOps σ
  renderLanes : Nat
  wipRootRenderLanes : Nat
  entangledActionLane : Nat

/-- The skip test of the processing loop: an update whose (Offscreen-stripped)
lane is not a subset of the relevant render-lanes mask is deferred. -/
def shouldSkipUpdate {σ : Type} (P : PassParams σ) (update : Update σ) : Bool :=
  let updateLane := removeLanes update.lane OffscreenLane
  let isHiddenUpdate := updateLane != update.lane
  if isHiddenUpdate then !(isSubsetOfLanes P.wipRootRenderLanes updateLane)
  else !(isSubsetOfLanes P.renderLanes updateLane)

/-- Mutable state of the processing loop (`newState`, `newLanes`,
`newBaseState`, `newFirstBaseUpdate..newLastBaseUpdate`, the fiber's flags,
`hasForceUpdate` and `didReadFromEntangledAsyncAction`). -/
structure PassAcc (σ : Type) where
  newState : σ
  newLanes : Nat
  newBaseState : Option σ
  newBaseUpdates : List (Update σ)
  flags : Nat
  hasForceUpdate : Bool
  didReadFromEntangledAsyncAction : Bool

/-- One iteration of the `do ... while` loop of `processUpdateQueue`. -/
def passStep {σ : Type} (P : PassParams σ) (acc : PassAcc σ) (update : Update σ) :
    PassAcc σ :=
  let updateLane := removeLanes update.lane OffscreenLane
  let isHiddenUpdate := updateLane != update.lane
  if shouldSkipUpdate P update then
    -- Priority insufficient: clone into the deferred list; the first skip
    -- captures the state computed so far as the new base state.
    let clone : Update σ :=
      { lane := updateLane, tag := update.tag, payload := update.payload,
        callback := update.callback, id := update.id }
    match acc.newBaseUpdates with
    | [] =>
        { acc with newBaseUpdates := [clone], newBaseState := some acc.newState,
                   newLanes := mergeLanes acc.newLanes updateLane }
    | _ =>
        { acc with newBaseUpdates := acc.newBaseUpdates ++ [clone],
                   newLanes := mergeLanes acc.newLanes updateLane }
  else
    -- Sufficient priority.
    let acc :=
      { acc with didReadFromEntangledAsyncAction :=
          acc.didReadFromEntangledAsyncAction ||
            (updateLane != NoLane && updateLane == P.entangledActionLane) }
    let acc :=
      match acc.newBaseUpdates with
      | [] => acc
      | _ =>
          -- A skip already happened: also append this (to-be-committed)
          -- update, with NoLane so it is never skipped on replay and a
          -- nulled callback so the callback does not fire twice.
          let clone : Update σ :=
            { lane := NoLane, tag := update.tag, payload := update.payload,
              callback := false, id := update.id }
          { acc with newBaseUpdates := acc.newBaseUpdates ++ [clone] }
    let r := getStateFromUpdate P.J update acc.newState acc.flags acc.hasForceUpdate
    let fl :=
      if update.callback then
        (r.2.1 ||| Callback) ||| (if isHiddenUpdate then Visibility else 0)
      else r.2.1
    { acc with newState := r.1, flags := fl, hasForceUpdate := r.2.2 }

/-- The loop accumulator at the start of the processing loop. -/
def initialPassAcc {σ : Type} (flags : Nat) (baseState : σ) : PassAcc σ :=
  { newState := baseState, newLanes := NoLanes, newBaseState := none,
    newBaseUpdates := [], flags := flags, hasForceUpdate := false,
    didReadFromEntangledAsyncAction := false }

/-- Lines 774–829 of `processUpdateQueue`: transfer `shared.pending` to the
work-in-progress base queue, and also to the alternate (`current`) fiber's
queue when that queue's last base update is a different node
(`currentLastBaseUpdate !== lastBaseUpdate`, modelled through `id`). -/
def transferPending {σ : Type} (queue : UpdateQueue σ)
    (current : Option (UpdateQueue σ)) :
    UpdateQueue σ × Option (UpdateQueue σ) :=
  match queue.sharedPending with
  | [] => (queue, current)
  | _ :: _ =>
      let pending := queue.sharedPending
      let queue' := { queue with sharedPending := [],
                                 baseUpdates := queue.baseUpdates ++ pending }
      match current with
      | none => (queue', none)
      | some currentQueue =>
          if (currentQueue.baseUpdates.getLast?).map Update.id !=
              (pending.getLast?).map Update.id then
            (queue', some { currentQueue with
                              baseUpdates := currentQueue.baseUpdates ++ pending })
          else
            (queue', some currentQueue)

/-- `processUpdateQueue`.  Returns the updated work-in-progress fiber and the
(possibly updated) alternate queue.  The mid-loop re-check of
`queue.shared.pending` (an update enqueued by a reducer during processing)
can never fire here because the model's state reducers cannot enqueue;
`markSkippedUpdateLanes` and `queue.shared.lanes` are external bookkeeping
not modelled. -/
def processUpdateQueue {σ : Type} (P : PassParams σ) (workInProgress : FiberQ σ)
    (current : Option (UpdateQueue σ)) : FiberQ σ × Option (UpdateQueue σ) :=
  let t := transferPending workInProgress.queue current
  let queue := t.1
  let current' := t.2
  match queue.baseUpdates with
  | [] => ({ workInProgress with queue := queue }, current')
  | firstBaseUpdate =>
      let acc := firstBaseUpdate.foldl (passStep P)
        (initialPassAcc workInProgress.flags queue.baseState)
      let newBaseState := acc.newBaseState.getD acc.newState
      ({ workInProgress with
           queue := { baseState := newBaseState,
                      baseUpdates := acc.newBaseUpdates,
                      sharedPending := [] },
           lanes := acc.newLanes,
           memoizedState := acc.newState,
           flags := acc.flags },
       current')

/-- A root/class fiber holding base state `s0` with the records `us` enqueued
(in insertion order) on the shared pending list and nothing else in flight. -/
def initFiberQ {σ : Type} (s0 : σ) (us : List (Update σ)) : FiberQ σ :=
  { flags := 0, lanes := 0, memoizedState := s0,
    queue := { baseState := s0, baseUpdates := [], sharedPending := us } }

/-- One pass of `processUpdateQueue` at priority mask `m` (used both as
`renderLanes` and as the work-in-progress root's render lanes, as in a
non-Offscreen render), with no alternate. -/
def runPass {σ : Type} (J : JsOps σ) (eAL : Nat) (m : Nat) (f : FiberQ σ) :
    FiberQ σ :=
  (processUpdateQueue
      { J := J, renderLanes := m, wipRootRenderLanes := m,
        entangledActionLane := eAL } f none).1

/-- Successive passes at the masks `ms`, in order. -/
def runPasses {σ : Type} (J : JsOps σ) (eAL : Nat) (ms : List Nat) (f : FiberQ σ) :
    FiberQ σ :=
  ms.foldl (fun f m => runPass J eAL m f) f

/-- What the processing loop retains of a record once a skip has occurred:
skipped records are cloned with the Offscreen bit stripped from their lane;
already-applied records are cloned with `NoLane` and no callback. -/
def retainedClone {σ : Type} (P : PassParams σ) (u : Update σ) : Update σ :=
  if shouldSkipUpdate P u then
    { lane := removeLanes u.lane OffscreenLane, tag := u.tag,
      payload := u.payload, callback := u.callback, id := u.id }
  else
    { lane := NoLane, tag := u.tag, payload := u.payload, callback := false,
      id := u.id }

/-! ### Lane arithmetic lemmas -/

theorem removeLanes_and_self (a b : Nat) : removeLanes a b &&& b = 0 := by
  apply Nat.eq_of_testBit_eq
  intro i
  simp only [removeLanes, Nat.testBit_and, Nat.testBit_xor, Nat.zero_testBit]
  cases a.testBit i <;> cases b.testBit i <;> rfl

theorem removeLanes_idem (a b : Nat) :
    removeLanes (removeLanes a b) b = removeLanes a b := by
  have h := removeLanes_and_self a b
  simp only [removeLanes] at *
  rw [h, Nat.xor_zero]

theorem removeLanes_zero (b : Nat) : removeLanes 0 b = 0 := by
  simp [removeLanes]

theorem isSubsetOfLanes_zero (m : Nat) : isSubsetOfLanes m 0 = true := by
  simp [isSubsetOfLanes]

/-- With `renderLanes` equal to the work-in-progress root's render lanes (the
non-Offscreen case) the skip test collapses to one subset check. -/
theorem shouldSkipUpdate_eq_lanes {σ : Type} (P : PassParams σ)
    (h : P.wipRootRenderLanes = P.renderLanes) (u : Update σ) :
    shouldSkipUpdate P u
      = !(isSubsetOfLanes P.renderLanes (removeLanes u.lane OffscreenLane)) := by
  simp only [shouldSkipUpdate, h]
  split <;> rfl

/-! ### Processing-loop characterization -/

theorem getStateFromUpdate_fst {σ : Type} (J : JsOps σ) (u : Update σ)
    (s : σ) (fl : Nat) (b : Bool) :
    (getStateFromUpdate J u s fl b).1 = applyUpdate J s u := by
  cases h : u.tag <;> simp [getStateFromUpdate, applyUpdate, h] <;> split <;> rfl

/-- Applying a retained clone changes the state exactly as applying the
original record: cloning touches only `lane` and `callback`. -/
theorem applyUpdate_retainedClone {σ : Type} (J : JsOps σ) (P : PassParams σ)
    (s : σ) (u : Update σ) :
    applyUpdate J s (retainedClone P u) = applyUpdate J s u := by
  unfold retainedClone
  split <;> rfl

theorem passStep_clean_noskip {σ : Type} (P : PassParams σ) (acc : PassAcc σ)
    (u : Update σ) (h : shouldSkipUpdate P u = false)
    (hb : acc.newBaseUpdates = []) :
    (passStep P acc u).newBaseUpdates = []
    ∧ (passStep P acc u).newBaseState = acc.newBaseState
    ∧ (passStep P acc u).newState = applyUpdate P.J acc.newState u
    ∧ (passStep P acc u).newLanes = acc.newLanes := by
  simp [passStep, h, hb, getStateFromUpdate_fst]

theorem passStep_first_skip {σ : Type} (P : PassParams σ) (acc : PassAcc σ)
    (u : Update σ) (h : shouldSkipUpdate P u = true)
    (hb : acc.newBaseUpdates = []) :
    (passStep P acc u).newBaseUpdates = [retainedClone P u]
    ∧ (passStep P acc u).newBaseState = some acc.newState := by
  simp [passStep, h, hb, retainedClone]

theorem passStep_after_skip {σ : Type} (P : PassParams σ) (acc : PassAcc σ)
    (u : Update σ) (hb : acc.newBaseUpdates ≠ []) :
    (passStep P acc u).newBaseUpdates = acc.newBaseUpdates ++ [retainedClone P u]
    ∧ (passStep P acc u).newBaseState = acc.newBaseState := by
  rcases hl : acc.newBaseUpdates with _ | ⟨a, as⟩
  · exact absurd hl hb
  · by_cases h : shouldSkipUpdate P u = true
    · simp [passStep, h, hl, retainedClone]
    · simp only [Bool.not_eq_true] at h
      simp [passStep, h, hl, retainedClone]

theorem foldl_passStep_clean {σ : Type} (P : PassParams σ) (pre : List (Update σ))
    (hpre : ∀ u ∈ pre, shouldSkipUpdate P u = false) :
    ∀ acc : PassAcc σ, acc.newBaseUpdates = [] →
      (pre.foldl (passStep P) acc).newBaseUpdates = []
      ∧ (pre.foldl (passStep P) acc).newBaseState = acc.newBaseState
      ∧ (pre.foldl (passStep P) acc).newState
          = pre.foldl (applyUpdate P.J) acc.newState := by
  induction pre with
  | nil => intro acc hb; exact ⟨hb, rfl, rfl⟩
  | cons u rest ih =>
      intro acc hb
      have hu : shouldSkipUpdate P u = false := hpre u (by simp)
      obtain ⟨h1, h2, h3, _⟩ := passStep_clean_noskip P acc u hu hb
      have hrest : ∀ v ∈ rest, shouldSkipUpdate P v = false := by
        intro v hv; exact hpre v (by simp [hv])
      obtain ⟨g1, g2, g3⟩ := ih hrest (passStep P acc u) h1
      refine ⟨by simpa using g1, ?_, ?_⟩
      · simp only [List.foldl_cons]; rw [g2, h2]
      · simp only [List.foldl_cons]; rw [g3, h3]

theorem foldl_passStep_after_skip {σ : Type} (P : PassParams σ)
    (l : List (Update σ)) :
    ∀ acc : PassAcc σ, acc.newBaseUpdates ≠ [] →
      (l.foldl (passStep P) acc).newBaseUpdates
          = acc.newBaseUpdates ++ l.map (retainedClone P)
      ∧ (l.foldl (passStep P) acc).newBaseState = acc.newBaseState := by
  induction l with
  | nil => intro acc _; simp
  | cons u rest ih =>
      intro acc hb
      obtain ⟨h1, h2⟩ := passStep_after_skip P acc u hb
      have hne : (passStep P acc u).newBaseUpdates ≠ [] := by
        rw [h1]; simp
      obtain ⟨g1, g2⟩ := ih (passStep P acc u) hne
      constructor
      · simp only [List.foldl_cons]; rw [g1, h1]; simp
      · simp only [List.foldl_cons]; rw [g2, h2]

/-- The pending transfer with no alternate, written as one equation. -/
theorem transferPending_none {σ : Type} (q : UpdateQueue σ) :
    transferPending q none
      = ({ q with baseUpdates := q.baseUpdates ++ q.sharedPending,
                  sharedPending := [] }, none) := by
  rcases q with ⟨b, bu, sp⟩
  cases sp <;> simp [transferPending]

/-- All records a `processUpdateQueue` call will fold over (the base list with
the pending list transferred behind it). -/
def allUpdates {σ : Type} (f : FiberQ σ) : List (Update σ) :=
  f.queue.baseUpdates ++ f.queue.sharedPending

theorem processUpdateQueue_empty_char {σ : Type} (P : PassParams σ)
    (f : FiberQ σ) (h : allUpdates f = []) :
    (processUpdateQueue P f none).1
      = { f with queue := { f.queue with baseUpdates := [],
                                         sharedPending := [] } } := by
  simp only [allUpdates, List.append_eq_nil] at h
  simp [processUpdateQueue, transferPending_none, h.1, h.2]

/-- The final loop accumulator of a pass that folds over the records `l`. -/
def passOutcome {σ : Type} (P : PassParams σ) (f : FiberQ σ)
    (l : List (Update σ)) : PassAcc σ :=
  l.foldl (passStep P) (initialPassAcc f.flags f.queue.baseState)

/-- The fiber produced by a `processUpdateQueue` call that has at least one
record to fold over, in terms of the loop accumulator. -/
theorem processUpdateQueue_cons_eq {σ : Type} (P : PassParams σ) (f : FiberQ σ)
    (a : Update σ) (as : List (Update σ))
    (hq : f.queue.baseUpdates ++ f.queue.sharedPending = a :: as) :
    (processUpdateQueue P f none).1 =
      { flags := (passOutcome P f (a :: as)).flags,
        lanes := (passOutcome P f (a :: as)).newLanes,
        memoizedState := (passOutcome P f (a :: as)).newState,
        queue := { baseState := ((passOutcome P f (a :: as)).newBaseState).getD
                     (passOutcome P f (a :: as)).newState,
                   baseUpdates := (passOutcome P f (a :: as)).newBaseUpdates,
                   sharedPending := [] } } := by
  obtain ⟨fl, ln, ms, q⟩ := f
  obtain ⟨bs, bu, sp⟩ := q
  simp only at hq
  simp [processUpdateQueue, transferPending_none, passOutcome, hq]

theorem processUpdateQueue_noskip_char {σ : Type} (P : PassParams σ)
    (f : FiberQ σ) (hne : allUpdates f ≠ [])
    (hns : ∀ u ∈ allUpdates f, shouldSkipUpdate P u = false) :
    (processUpdateQueue P f none).1.memoizedState
        = (allUpdates f).foldl (applyUpdate P.J) f.queue.baseState
    ∧ (processUpdateQueue P f none).1.queue.baseUpdates = []
    ∧ (processUpdateQueue P f none).1.queue.baseState
        = (allUpdates f).foldl (applyUpdate P.J) f.queue.baseState
    ∧ (processUpdateQueue P f none).1.queue.sharedPending = [] := by
  rcases hl : allUpdates f with _ | ⟨a, as⟩
  · exact absurd hl hne
  · have hq : f.queue.baseUpdates ++ f.queue.sharedPending = a :: as := by
      simpa [allUpdates] using hl
    have hns' : ∀ u ∈ a :: as, shouldSkipUpdate P u = false := by
      intro u hu; exact hns u (hl ▸ hu)
    obtain ⟨g1, g2, g3⟩ :=
      foldl_passStep_clean P (a :: as) hns'
        (initialPassAcc f.flags f.queue.baseState) rfl
    have g2' : (passOutcome P f (a :: as)).newBaseState = none := by
      simpa [passOutcome, initialPassAcc] using g2
    rw [processUpdateQueue_cons_eq P f a as hq]
    refine ⟨g3, g1, ?_, rfl⟩
    rw [g2', Option.getD_none]
    exact g3

theorem processUpdateQueue_skip_char {σ : Type} (P : PassParams σ)
    (f : FiberQ σ) (pre suf : List (Update σ)) (uk : Update σ)
    (hsplit : allUpdates f = pre ++ uk :: suf)
    (hpre : ∀ u ∈ pre, shouldSkipUpdate P u = false)
    (hk : shouldSkipUpdate P uk = true) :
    (processUpdateQueue P f none).1.queue.baseState
        = pre.foldl (applyUpdate P.J) f.queue.baseState
    ∧ (processUpdateQueue P f none).1.queue.baseUpdates
        = (uk :: suf).map (retainedClone P)
    ∧ (processUpdateQueue P f none).1.queue.sharedPending = [] := by
  set acc0 : PassAcc σ := initialPassAcc f.flags f.queue.baseState with hacc0
  obtain ⟨g1, g2, g3⟩ := foldl_passStep_clean P pre hpre acc0 rfl
  obtain ⟨k1, k2⟩ := passStep_first_skip P (pre.foldl (passStep P) acc0) uk hk g1
  have hne : (passStep P (pre.foldl (passStep P) acc0) uk).newBaseUpdates ≠ [] := by
    rw [k1]; simp
  obtain ⟨m1, m2⟩ :=
    foldl_passStep_after_skip P suf (passStep P (pre.foldl (passStep P) acc0) uk) hne
  have hfold : (pre ++ uk :: suf).foldl (passStep P) acc0
      = suf.foldl (passStep P) (passStep P (pre.foldl (passStep P) acc0) uk) := by
    rw [List.foldl_append, List.foldl_cons]
  have hq : f.queue.baseUpdates ++ f.queue.sharedPending = pre ++ uk :: suf := by
    simpa [allUpdates] using hsplit
  obtain ⟨a, as, hcons⟩ : ∃ a as, pre ++ uk :: suf = a :: as := by
    cases pre with
    | nil => exact ⟨uk, suf, rfl⟩
    | cons a as => exact ⟨a, as ++ uk :: suf, by simp⟩
  rw [hcons] at hq hfold
  rw [processUpdateQueue_cons_eq P f a as hq]
  refine ⟨?_, ?_, rfl⟩
  · show ((a :: as).foldl (passStep P) acc0).newBaseState.getD
        ((a :: as).foldl (passStep P) acc0).newState
      = pre.foldl (applyUpdate P.J) f.queue.baseState
    rw [hfold, m2, k2, g3, Option.getD_some]
    rfl
  · show ((a :: as).foldl (passStep P) acc0).newBaseUpdates
      = (uk :: suf).map (retainedClone P)
    rw [hfold, m1, k1]
    simp

/-! ### Splitting a record list at the first skipped record -/

theorem span_first_skip {α : Type} (p : α → Bool) (l : List α) :
    (∀ u ∈ l.takeWhile (fun a => !p a), p u = false)
    ∧ (l.dropWhile (fun a => !p a) = [] → ∀ u ∈ l, p u = false)
    ∧ (∀ a as, l.dropWhile (fun a => !p a) = a :: as → p a = true) := by
  induction l with
  | nil => exact ⟨by simp, by simp, by simp⟩
  | cons x xs ih =>
      by_cases hx : p x = true
      · refine ⟨?_, ?_, ?_⟩
        · intro u hu
          simp [List.takeWhile_cons, hx] at hu
        · intro h
          simp [List.dropWhile_cons, hx] at h
        · intro a as h
          simp [List.dropWhile_cons, hx] at h
          rw [← h.1]; exact hx
      · simp only [Bool.not_eq_true] at hx
        refine ⟨?_, ?_, ?_⟩
        · intro u hu
          simp only [List.takeWhile_cons, hx, Bool.not_false, if_true] at hu
          rcases List.mem_cons.mp hu with h | h
          · rw [h]; exact hx
          · exact ih.1 u h
        · intro h u hu
          simp only [List.dropWhile_cons, hx, Bool.not_false, if_true] at h
          rcases List.mem_cons.mp hu with h' | h'
          · rw [h']; exact hx
          · exact ih.2.1 h u h'
        · intro a as h
          simp only [List.dropWhile_cons, hx, Bool.not_false, if_true] at h
          exact ih.2.2 a as h

/-! ### The multi-pass invariant -/

/-- The invariant carried across passes: the queue fully resolves to `T`,
the memoized state is already `T` once the queue is drained, and every
retained record's (Offscreen-stripped) lane is inside the full mask `M`. -/
def QInv {σ : Type} (J : JsOps σ) (M : Nat) (T : σ) (f : FiberQ σ) : Prop :=
  (allUpdates f).foldl (applyUpdate J) f.queue.baseState = T
  ∧ (allUpdates f = [] → f.memoizedState = T)
  ∧ ∀ u ∈ allUpdates f,
      isSubsetOfLanes M (removeLanes u.lane OffscreenLane) = true

theorem foldl_applyUpdate_retainedClone {σ : Type} (J : JsOps σ)
    (P : PassParams σ) (l : List (Update σ)) (s : σ) :
    (l.map (retainedClone P)).foldl (applyUpdate J) s
      = l.foldl (applyUpdate J) s := by
  induction l generalizing s with
  | nil => rfl
  | cons x xs ih =>
      simp only [List.map_cons, List.foldl_cons, applyUpdate_retainedClone]
      exact ih _

theorem QInv_runPass {σ : Type} (J : JsOps σ) (M : Nat) (T : σ) (eAL m : Nat)
    (f : FiberQ σ) (h : QInv J M T f) : QInv J M T (runPass J eAL m f) := by
  obtain ⟨h1, h2, h3⟩ := h
  set P : PassParams σ :=
    { J := J, renderLanes := m, wipRootRenderLanes := m,
      entangledActionLane := eAL } with hP
  by_cases hall : allUpdates f = []
  · have he := processUpdateQueue_empty_char P f hall
    have hmemo : f.memoizedState = T := h2 hall
    rw [hall] at h1
    constructor
    · show (allUpdates (runPass J eAL m f)).foldl (applyUpdate J)
          (runPass J eAL m f).queue.baseState = T
      rw [show runPass J eAL m f = _ from he]
      simpa [allUpdates] using h1
    constructor
    · intro _
      rw [show runPass J eAL m f = _ from he]
      exact hmemo
    · intro u hu
      rw [show runPass J eAL m f = _ from he] at hu
      simp [allUpdates] at hu
  · obtain ⟨hs1, hs2, hs3⟩ := span_first_skip (shouldSkipUpdate P) (allUpdates f)
    rcases hd : (allUpdates f).dropWhile (fun a => !shouldSkipUpdate P a) with _ | ⟨uk, suf⟩
    · -- no record is skipped at this mask
      have hns : ∀ u ∈ allUpdates f, shouldSkipUpdate P u = false := hs2 hd
      obtain ⟨g1, g2, g3, g4⟩ := processUpdateQueue_noskip_char P f hall hns
      constructor
      · show (allUpdates (runPass J eAL m f)).foldl (applyUpdate J)
            (runPass J eAL m f).queue.baseState = T
        simp only [allUpdates, runPass] at *
        rw [g2, g4, g3]
        simpa using h1
      constructor
      · intro _
        show (runPass J eAL m f).memoizedState = T
        simp only [runPass] at *
        rw [g1]; exact h1
      · intro u hu
        simp only [allUpdates, runPass] at hu
        rw [g2, g4] at hu
        simp at hu
    · -- `uk` is the first skipped record
      have hsplit : allUpdates f
          = (allUpdates f).takeWhile (fun a => !shouldSkipUpdate P a)
            ++ uk :: suf := by
        rw [← hd, List.takeWhile_append_dropWhile]
      have hpre := hs1
      have hk : shouldSkipUpdate P uk = true := hs3 uk suf hd
      obtain ⟨g1, g2, g3⟩ :=
        processUpdateQueue_skip_char P f _ suf uk hsplit hpre hk
      have hmemsub : ∀ u ∈ uk :: suf, u ∈ allUpdates f := by
        intro u hu
        rw [hsplit]
        exact List.mem_append_right _ hu
      constructor
      · show (allUpdates (runPass J eAL m f)).foldl (applyUpdate J)
            (runPass J eAL m f).queue.baseState = T
        simp only [allUpdates, runPass] at *
        rw [g2, g3, g1]
        rw [List.append_nil, foldl_applyUpdate_retainedClone J P]
        rw [← List.foldl_append, ← hsplit]
        exact h1
      constructor
      · intro hcontra
        exfalso
        simp only [allUpdates, runPass] at hcontra
        rw [g2, g3] at hcontra
        simp at hcontra
      · intro u hu
        simp only [allUpdates, runPass] at hu
        rw [g2, g3, List.append_nil] at hu
        obtain ⟨v, hv, hvu⟩ := List.mem_map.mp hu
        have hvall : v ∈ allUpdates f := hmemsub v hv
        have hvM := h3 v hvall
        rw [← hvu]
        unfold retainedClone
        by_cases hvskip : shouldSkipUpdate P v = true
        · rw [if_pos hvskip]
          show isSubsetOfLanes M
            (removeLanes (removeLanes v.lane OffscreenLane) OffscreenLane) = true
          rw [removeLanes_idem]
          exact hvM
        · rw [if_neg hvskip]
          show isSubsetOfLanes M (removeLanes NoLane OffscreenLane) = true
          rw [show (NoLane : Nat) = 0 from rfl, removeLanes_zero]
          exact isSubsetOfLanes_zero M

theorem QInv_runPasses {σ : Type} (J : JsOps σ) (M : Nat) (T : σ) (eAL : Nat)
    (ms : List Nat) :
    ∀ f : FiberQ σ, QInv J M T f → QInv J M T (runPasses J eAL ms f) := by
  induction ms with
  | nil => intro f h; exact h
  | cons m rest ih =>
      intro f h
      exact ih (runPass J eAL m f) (QInv_runPass J M T eAL m f h)

/-- A final pass at a mask covering every retained lane fully drains the
queue and memoizes the resolved state. -/
theorem QInv_final_pass {σ : Type} (J : JsOps σ) (M : Nat) (T : σ) (eAL : Nat)
    (f : FiberQ σ) (h : QInv J M T f) :
    (runPass J eAL M f).memoizedState = T := by
  obtain ⟨h1, h2, h3⟩ := h
  set P : PassParams σ :=
    { J := J, renderLanes := M, wipRootRenderLanes := M,
      entangledActionLane := eAL } with hP
  by_cases hall : allUpdates f = []
  · have he := processUpdateQueue_empty_char P f hall
    show (runPass J eAL M f).memoizedState = T
    rw [show runPass J eAL M f = _ from he]
    exact h2 hall
  · have hns : ∀ u ∈ allUpdates f, shouldSkipUpdate P u = false := by
      intro u hu
      rw [shouldSkipUpdate_eq_lanes P rfl u]
      rw [h3 u hu]
      rfl
    obtain ⟨g1, _, _, _⟩ := processUpdateQueue_noskip_char P f hall hns
    show (runPass J eAL M f).memoizedState = T
    simp only [runPass] at *
    rw [g1]
    exact h1

/-! ## Claims C1–C3 -/

/-- **C1.** For every base state and every record list enqueued in insertion
order with mixed priority tiers, running `processUpdateQueue` through any
sequence of passes at intermediate masks and then once at a mask `M` that
includes every record's tier yields the same final memoized state as folding
all records in original insertion order in one pass (equivalently, as a
single `processUpdateQueue` call at `M`). -/
theorem processUpdateQueue_priority_independent_determinism {σ : Type}
    (J : JsOps σ) (eAL : Nat) (s0 : σ) (us : List (Update σ)) (ms : List Nat)
    (M : Nat)
    (hM : ∀ u ∈ us, isSubsetOfLanes M (removeLanes u.lane OffscreenLane) = true) :
    (runPass J eAL M (runPasses J eAL ms (initFiberQ s0 us))).memoizedState
        = us.foldl (applyUpdate J) s0
    ∧ (runPass J eAL M (initFiberQ s0 us)).memoizedState
        = us.foldl (applyUpdate J) s0 := by
  have hinv : QInv J M (us.foldl (applyUpdate J) s0) (initFiberQ s0 us) := by
    refine ⟨?_, ?_, ?_⟩
    · simp [allUpdates, initFiberQ]
    · intro h
      simp only [allUpdates, initFiberQ, List.nil_append] at h
      simp [initFiberQ, h]
    · intro u hu
      exact hM u (by simpa [allUpdates, initFiberQ] using hu)
  constructor
  · exact QInv_final_pass J M _ eAL _
      (QInv_runPasses J M _ eAL ms (initFiberQ s0 us) hinv)
  · exact QInv_final_pass J M _ eAL _ hinv

/-- Witness for C1 at a concrete instance: three integer updates in tiers
1, 2, 1; one pass at mask 1, then the closing pass at mask 3. -/
theorem processUpdateQueue_priority_independent_determinism_witness :
    (runPass ⟨fun _ p => p, fun _ => false⟩ 0 3
        (runPasses ⟨fun _ p => p, fun _ => false⟩ 0 [1]
          (initFiberQ (0 : Int)
            [⟨1, .updateState, .obj 10, false, 1⟩,
             ⟨2, .updateState, .obj 20, false, 2⟩,
             ⟨1, .updateState, .obj 30, false, 3⟩]))).memoizedState
      = [⟨1, .updateState, .obj 10, false, 1⟩,
         ⟨2, .updateState, .obj 20, false, 2⟩,
         ⟨1, .updateState, .obj 30, false, 3⟩].foldl
          (applyUpdate ⟨fun _ p => p, fun _ => false⟩) (0 : Int) :=
  (processUpdateQueue_priority_independent_determinism
    ⟨fun _ p => p, fun _ => false⟩ 0 0 _ [1] 3 (by decide)).1

/-- **C2.** In one `processUpdateQueue` call, the first record whose tier
fails the rendering mask starts the retained list: the new base state is the
state computed so far (the fold of the qualified prefix, not the original
base state), and the retained base-update list is exactly a clone of the
first skipped record followed by clones of every subsequent record,
qualified or not — none dropped, none duplicated. -/
theorem processUpdateQueue_first_skip_rebase {σ : Type} (P : PassParams σ)
    (s0 : σ) (pre suf : List (Update σ)) (uk : Update σ)
    (hpre : ∀ u ∈ pre, shouldSkipUpdate P u = false)
    (hk : shouldSkipUpdate P uk = true) :
    (processUpdateQueue P (initFiberQ s0 (pre ++ uk :: suf)) none).1.queue.baseState
        = pre.foldl (applyUpdate P.J) s0
    ∧ (processUpdateQueue P (initFiberQ s0 (pre ++ uk :: suf)) none).1.queue.baseUpdates
        = (uk :: suf).map (retainedClone P) := by
  obtain ⟨g1, g2, _⟩ :=
    processUpdateQueue_skip_char P (initFiberQ s0 (pre ++ uk :: suf)) pre suf uk
      (by simp [allUpdates, initFiberQ]) hpre hk
  exact ⟨g1, g2⟩

/-- Witness for C2: base state `0`, a qualified tier-1 update, then a
skipped tier-2 update, then another tier-1 update, rendered at mask 1. -/
theorem processUpdateQueue_first_skip_rebase_witness :
    (processUpdateQueue
        (⟨⟨fun _ p => p, fun _ => false⟩, 1, 1, 0⟩ : PassParams Int)
        (initFiberQ (0 : Int)
          [⟨1, .updateState, .obj 10, false, 1⟩,
           ⟨2, .updateState, .obj 20, false, 2⟩,
           ⟨1, .updateState, .obj 30, false, 3⟩]) none).1.queue.baseState = 10
    ∧ (processUpdateQueue
        (⟨⟨fun _ p => p, fun _ => false⟩, 1, 1, 0⟩ : PassParams Int)
        (initFiberQ (0 : Int)
          [⟨1, .updateState, .obj 10, false, 1⟩,
           ⟨2, .updateState, .obj 20, false, 2⟩,
           ⟨1, .updateState, .obj 30, false, 3⟩]) none).1.queue.baseUpdates
      = [⟨2, .updateState, .obj 20, false, 2⟩,
         ⟨0, .updateState, .obj 30, false, 3⟩] := by
  have h := processUpdateQueue_first_skip_rebase
    (⟨⟨fun _ p => p, fun _ => false⟩, 1, 1, 0⟩ : PassParams Int) (0 : Int)
    [⟨1, .updateState, .obj 10, false, 1⟩]
    [⟨1, .updateState, .obj 30, false, 3⟩]
    ⟨2, .updateState, .obj 20, false, 2⟩
    (by decide) (by decide)
  exact ⟨h.1, h.2⟩

theorem processUpdateQueue_snd {σ : Type} (P : PassParams σ) (f : FiberQ σ)
    (c : Option (UpdateQueue σ)) :
    (processUpdateQueue P f c).2 = (transferPending f.queue c).2 := by
  simp only [processUpdateQueue]
  split <;> rfl

/-- **C3.** When `processUpdateQueue` transfers the shared pending list into
the work-in-progress base-update list and the alternate's queue has a
different last base update, the pending records are appended to the
alternate's base-update list too: every enqueued record ends up in both
queues. -/
theorem processUpdateQueue_pending_in_both_queues {σ : Type} (P : PassParams σ)
    (f : FiberQ σ) (cq : UpdateQueue σ) (u : Update σ)
    (hu : u ∈ f.queue.sharedPending)
    (hdiff : (cq.baseUpdates.getLast?).map Update.id
        ≠ (f.queue.sharedPending.getLast?).map Update.id) :
    u ∈ (transferPending f.queue (some cq)).1.baseUpdates
    ∧ ∃ cq', (processUpdateQueue P f (some cq)).2 = some cq'
        ∧ u ∈ cq'.baseUpdates := by
  obtain ⟨fl, ln, ms, bs, bu, sp⟩ := f
  rcases sp with _ | ⟨a, as⟩
  · simp at hu
  · simp only [FiberQ.queue] at hu hdiff ⊢
    have hcond : ((cq.baseUpdates.getLast?).map Update.id !=
        (((a :: as) : List (Update σ)).getLast?).map Update.id) = true := by
      simpa [bne_iff_ne] using hdiff
    rw [processUpdateQueue_snd]
    constructor
    · simp [transferPending, hcond, hu]
    · refine ⟨{ cq with baseUpdates := cq.baseUpdates ++ a :: as }, ?_, ?_⟩
      · simp [transferPending, hcond]
      · simp [hu]

/-- Witness for C3: one pending record, alternate queue with an empty base
list. -/
theorem processUpdateQueue_pending_in_both_queues_witness :
    (⟨1, .updateState, .obj 5, false, 7⟩ : Update Int) ∈
        (transferPending
          (initFiberQ (0 : Int) [⟨1, .updateState, .obj 5, false, 7⟩]).queue
          (some ⟨(0 : Int), [], []⟩)).1.baseUpdates
    ∧ ∃ cq', (processUpdateQueue
          (⟨⟨fun _ p => p, fun _ => false⟩, 1, 1, 0⟩ : PassParams Int)
          (initFiberQ (0 : Int) [⟨1, .updateState, .obj 5, false, 7⟩])
          (some ⟨(0 : Int), [], []⟩)).2 = some cq'
        ∧ (⟨1, .updateState, .obj 5, false, 7⟩ : Update Int) ∈ cq'.baseUpdates :=
  processUpdateQueue_pending_in_both_queues
    (⟨⟨fun _ p => p, fun _ => false⟩, 1, 1, 0⟩ : PassParams Int)
    (initFiberQ (0 : Int) [⟨1, .updateState, .obj 5, false, 7⟩])
    ⟨(0 : Int), [], []⟩ ⟨1, .updateState, .obj 5, false, 7⟩
    (by simp [initFiberQ]) (by simp [initFiberQ])

/-! ## The child-list reconciler (`ReactChildFiber.js`)

The node-construction externals (`createFiberFromElement`,
`createFiberFromText`, `createFiberFromFragment`, `createWorkInProgress`,
`createFiberFromThrow`) live in `ReactFiber.js`, an external collaborator of
the reconciler; they are modelled from the spec as the minimal constructors
the algorithm's bookkeeping observes (a fresh node has no `alternate`; a
reused clone carries the `alternate` cross-link and starts with cleared
structural-effect flags).  Portals, iterator children and context reads are
outside the modelled child domain; `__DEV__` warnings, `coerceRef`,
`validateFragmentProps` and the hydration tree-fork counters are omitted. -/

/-- The element `type` discriminator: a host type string, or the fragment
sentinel `REACT_FRAGMENT_TYPE`. -/
inductive ElemType where
  | host (name : String)
  | fragment
  deriving DecidableEq, Repr

/-- Fiber work tags (only the ones the embedded code branches on). -/
inductive FibTag where
  | hostComponent
  | hostText
  | fragment
  | hostPortal
  | throwNode
  | suspenseComponent
  deriving DecidableEq, Repr

/-- A value thrown during reconciliation: the suspension signal
(`SuspenseException`), a raw thenable (e.g. a pending lazy payload), or an
ordinary error such as the invalid-object-type error. -/
inductive JsThrow where
  | suspenseException
  | thenableValue (id : Nat)
  | invalidObjectError
  deriving DecidableEq, Repr

def JsThrow.isThenable : JsThrow → Bool
  | .thenableValue _ => true
  | _ => false

/-- A logical child description (`newChild`): elements (whose props carry an
opaque token and the `props.children` value), text, numbers, booleans,
`null`/`undefined`, arrays, thenables and lazy values (each with their
resolution when not pending), and unsupported object shapes. -/
inductive Child where
  | element (key : Option String) (etype : ElemType) (propsId : Nat)
      (children : Child)
  | textChild (s : String)
  | numChild (n : Int)
  | boolChild (b : Bool)
  | nullChild
  | undefinedChild
  | arr (xs : List Child)
  | thenableChild (id : Nat) (resolved : Option Child)
  | lazyChild (id : Nat) (resolved : Option Child)
  | invalidObject (id : Nat)

/-- `pendingProps` of a produced fiber. -/
inductive Prp where
  | elemProps (propsId : Nat) (children : Child)
  | textProps (s : String)
  | fragProps (children : Child)
  | throwProps (x : JsThrow)

/-- A node of the previous (current) sibling chain.  `id` is its JavaScript
object identity. -/
structure OldFiber where
  id : Nat
  tag : FibTag
  key : Option String
  elemType : Option ElemType
  index : Nat
  deriving DecidableEq, Repr

/-- A freshly produced work-in-progress fiber.  `ret` is the `return`
back-reference (the parent's id); the sibling chain is the enclosing list. -/
structure NewFiber where
  tag : FibTag
  key : Option String
  elemType : Option ElemType
  index : Nat
  flags : Nat
  pendingProps : Prp
  alternate : Option OldFiber
  ret : Option Nat

/-- The slice of the parent (`returnFiber`) the reconciler reads and
mutates: its identity, mode bits, `deletions` array (`null` is modelled as
`[]`) and flags. -/
structure RetFiber where
  id : Nat
  mode : Nat
  deletions : List OldFiber
  flags : Nat

/-- `deleteChild`: push one previous child on the parent's deletion list,
setting `ChildDeletion` when the list is first created. -/
def deleteChild (shouldTrackSideEffects : Bool) (returnFiber : RetFiber)
    (childToDelete : OldFiber) : RetFiber :=
  if !shouldTrackSideEffects then returnFiber
  else
    match returnFiber.deletions with
    | [] => { returnFiber with deletions := [childToDelete],
                               flags := returnFiber.flags ||| ChildDeletion }
    | _ => { returnFiber with
               deletions := returnFiber.deletions ++ [childToDelete] }

/-- `deleteRemainingChildren`: delete a whole chain suffix, one
`deleteChild` at a time. -/
def deleteRemainingChildren (shouldTrackSideEffects : Bool)
    (returnFiber : RetFiber) (currentFirstChild : List OldFiber) : RetFiber :=
  if !shouldTrackSideEffects then returnFiber
  else currentFirstChild.foldl (deleteChild shouldTrackSideEffects) returnFiber

/-- Keys of the `existingChildren` map: an explicit string key or the
implicit index (JavaScript `Map` distinguishes `"0"` from `0`). -/
inductive MapKey where
  | str (s : String)
  | idx (n : Nat)
  deriving DecidableEq, Repr

def mapKeyOf (f : OldFiber) : MapKey :=
  match f.key with
  | some k => .str k
  | none => .idx f.index

/-- `Map.prototype.set`: replace in place if the key exists, else append. -/
def mapSet (m : List (MapKey × OldFiber)) (k : MapKey) (v : OldFiber) :
    List (MapKey × OldFiber) :=
  if m.any (fun e => e.1 == k) then
    m.map (fun e => if e.1 == k then (k, v) else e)
  else m ++ [(k, v)]

def mapGet (m : List (MapKey × OldFiber)) (k : MapKey) : Option OldFiber :=
  (m.find? (fun e => e.1 == k)).map (·.2)

def mapDelete (m : List (MapKey × OldFiber)) (k : MapKey) :
    List (MapKey × OldFiber) :=
  m.eraseP (fun e => e.1 == k)

/-- `mapRemainingChildren`: keyed children by key, keyless ones by index. -/
def mapRemainingChildren (currentFirstChild : List OldFiber) :
    List (MapKey × OldFiber) :=
  currentFirstChild.foldl (fun m f => mapSet m (mapKeyOf f) f) []

/-- `useFiber` — clone an existing fiber for reuse.  `createWorkInProgress`
is external; modelled from the spec: the clone keeps the committed identity
(tag/key/elementType), carries the `alternate` cross-link and starts with no
structural-effect flags; `useFiber` then resets `index` to 0 and detaches
the sibling. -/
def useFiber (fiber : OldFiber) (pendingProps : Prp) : NewFiber :=
  { tag := fiber.tag, key := fiber.key, elemType := fiber.elemType,
    index := 0, flags := 0, pendingProps := pendingProps,
    alternate := some fiber, ret := none }

/-- `placeChild`: index assignment plus the high-water-mark move test. -/
def placeChild (shouldTrackSideEffects : Bool) (newFiber : NewFiber)
    (lastPlacedIndex newIndex : Nat) : NewFiber × Nat :=
  let newFiber := { newFiber with index := newIndex }
  if !shouldTrackSideEffects then
    ({ newFiber with flags := newFiber.flags ||| Forked }, lastPlacedIndex)
  else
    match newFiber.alternate with
    | some current =>
        let oldIndex := current.index
        if oldIndex < lastPlacedIndex then
          -- This is a move.
          ({ newFiber with
               flags := newFiber.flags ||| (Placement ||| PlacementDEV) },
           lastPlacedIndex)
        else
          -- This item can stay in place.
          (newFiber, oldIndex)
    | none =>
        -- This is an insertion.
        ({ newFiber with
             flags := newFiber.flags ||| (Placement ||| PlacementDEV) },
         lastPlacedIndex)

/-- `placeSingleChild`: only brand-new single children get a placement. -/
def placeSingleChild (shouldTrackSideEffects : Bool) (newFiber : NewFiber) :
    NewFiber :=
  if shouldTrackSideEffects && newFiber.alternate.isNone then
    { newFiber with flags := newFiber.flags ||| (Placement ||| PlacementDEV) }
  else newFiber

/-- Modelled from the spec: `createFiberFromText` (external constructor) —
a fresh text node with no alternate. -/
def createFiberFromText (textContent : String) : NewFiber :=
  { tag := .hostText, key := none, elemType := none, index := 0, flags := 0,
    pendingProps := .textProps textContent, alternate := none, ret := none }

/-- Modelled from the spec: `createFiberFromFragment` (external
constructor) — a fresh fragment node holding the children as pending
props. -/
def createFiberFromFragment (elements : Child) (key : Option String) :
    NewFiber :=
  { tag := .fragment, key := key, elemType := none, index := 0, flags := 0,
    pendingProps := .fragProps elements, alternate := none, ret := none }

/-- Modelled from the spec: `createFiberFromElement` (external
constructor) — a fresh node for an element description; fragment-typed
elements produce fragment nodes from their children. -/
def createFiberFromElement (key : Option String) (etype : ElemType)
    (propsId : Nat) (children : Child) : NewFiber :=
  match etype with
  | .fragment => createFiberFromFragment children key
  | .host _ =>
      { tag := .hostComponent, key := key, elemType := some etype, index := 0,
        flags := 0, pendingProps := .elemProps propsId children,
        alternate := none, ret := none }

/-- Modelled from the spec: `createFiberFromThrow` (external constructor) —
the synthetic placeholder node that re-throws in its begin phase. -/
def createFiberFromThrow (x : JsThrow) : NewFiber :=
  { tag := .throwNode, key := none, elemType := none, index := 0, flags := 0,
    pendingProps := .throwProps x, alternate := none, ret := none }

/-- `updateTextNode`: reuse only a text fiber, else insert fresh. -/
def updateTextNode (returnFiber : RetFiber) (current : Option OldFiber)
    (textContent : String) : NewFiber :=
  match current with
  | none => { createFiberFromText textContent with ret := some returnFiber.id }
  | some cur =>
      if cur.tag != .hostText then
        { createFiberFromText textContent with ret := some returnFiber.id }
      else
        { useFiber cur (.textProps textContent) with ret := some returnFiber.id }

/-- `updateFragment`: reuse only a fragment fiber, else insert fresh. -/
def updateFragment (returnFiber : RetFiber) (current : Option OldFiber)
    (fragment : Child) (key : Option String) : NewFiber :=
  match current with
  | none => { createFiberFromFragment fragment key with ret := some returnFiber.id }
  | some cur =>
      if cur.tag != .fragment then
        { createFiberFromFragment fragment key with ret := some returnFiber.id }
      else
        { useFiber cur (.fragProps fragment) with ret := some returnFiber.id }

/-- `updateElement`: fragment elements defer to `updateFragment`; otherwise
reuse when the element type matches the existing fiber's, else insert
fresh.  (`coerceRef` and the hot-reload/lazy type-compatibility extensions
are external/absent from the modelled type domain.) -/
def updateElement (returnFiber : RetFiber) (current : Option OldFiber)
    (key : Option String) (etype : ElemType) (propsId : Nat)
    (children : Child) : NewFiber :=
  match etype with
  | .fragment => updateFragment returnFiber current children key
  | .host _ =>
      match current with
      | some cur =>
          if cur.elemType == some etype then
            { useFiber cur (.elemProps propsId children) with
                ret := some returnFiber.id }
          else
            { createFiberFromElement key etype propsId children with
                ret := some returnFiber.id }
      | none =>
          { createFiberFromElement key etype propsId children with
              ret := some returnFiber.id }

/-- `createChild`: create a fresh fiber from a child description (no reuse);
`null`, `undefined`, booleans and the empty string yield no fiber;
unresolved thenables suspend; unresolved lazy payloads throw their
thenable; unsupported objects throw. -/
def createChild (returnFiber : RetFiber) (newChild : Child) :
    Except JsThrow (Option NewFiber) :=
  match newChild with
  | .textChild s =>
      if s != "" then
        .ok (some { createFiberFromText s with ret := some returnFiber.id })
      else .ok none
  | .numChild n =>
      .ok (some { createFiberFromText (toString n) with
                    ret := some returnFiber.id })
  | .element key etype propsId children =>
      .ok (some { createFiberFromElement key etype propsId children with
                    ret := some returnFiber.id })
  | .arr xs =>
      .ok (some { createFiberFromFragment (.arr xs) none with
                    ret := some returnFiber.id })
  | .lazyChild id resolved =>
      match resolved with
      | some c => createChild returnFiber c
      | none => .error (.thenableValue id)
  | .thenableChild _ resolved =>
      match resolved with
      | some c => createChild returnFiber c
      | none => .error .suspenseException
  | .invalidObject _ => .error .invalidObjectError
  | .boolChild _ => .ok none
  | .nullChild => .ok none
  | .undefinedChild => .ok none

/-- `oldFiber !== null ? oldFiber.key : null`. -/
def oldFiberKey (oldFiber : Option OldFiber) : Option String :=
  match oldFiber with
  | some f => f.key
  | none => none

/-- `updateSlot`: reuse the aligned old fiber when the keys match, otherwise
report a miss (`none`). -/
def updateSlot (returnFiber : RetFiber) (oldFiber : Option OldFiber)
    (newChild : Child) : Except JsThrow (Option NewFiber) :=
  let key : Option String := oldFiberKey oldFiber
  match newChild with
  | .textChild s =>
      if s != "" then
        -- Text nodes never carry keys: a keyed old fiber cannot be reused.
        if key != none then .ok none
        else .ok (some (updateTextNode returnFiber oldFiber s))
      else .ok none
  | .numChild n =>
      if key != none then .ok none
      else .ok (some (updateTextNode returnFiber oldFiber (toString n)))
  | .element ckey etype propsId children =>
      if ckey == key then
        .ok (some (updateElement returnFiber oldFiber ckey etype propsId children))
      else .ok none
  | .arr xs =>
      if key != none then .ok none
      else .ok (some (updateFragment returnFiber oldFiber (.arr xs) none))
  | .lazyChild id resolved =>
      match resolved with
      | some c => updateSlot returnFiber oldFiber c
      | none => .error (.thenableValue id)
  | .thenableChild _ resolved =>
      match resolved with
      | some c => updateSlot returnFiber oldFiber c
      | none => .error .suspenseException
  | .invalidObject _ => .error .invalidObjectError
  | .boolChild _ => .ok none
  | .nullChild => .ok none
  | .undefinedChild => .ok none

/-- `updateFromMap`: look a candidate up by explicit key or by the new
index, then reuse-or-create like `updateSlot`. -/
def updateFromMap (existingChildren : List (MapKey × OldFiber))
    (returnFiber : RetFiber) (newIdx : Nat) (newChild : Child) :
    Except JsThrow (Option NewFiber) :=
  match newChild with
  | .textChild s =>
      if s != "" then
        .ok (some (updateTextNode returnFiber
          (mapGet existingChildren (.idx newIdx)) s))
      else .ok none
  | .numChild n =>
      .ok (some (updateTextNode returnFiber
        (mapGet existingChildren (.idx newIdx)) (toString n)))
  | .element ckey etype propsId children =>
      let matchedFiber := mapGet existingChildren
        (match ckey with
         | none => .idx newIdx
         | some k => .str k)
      .ok (some (updateElement returnFiber matchedFiber ckey etype propsId children))
  | .arr xs =>
      .ok (some (updateFragment returnFiber
        (mapGet existingChildren (.idx newIdx)) (.arr xs) none))
  | .lazyChild id resolved =>
      match resolved with
      | some c => updateFromMap existingChildren returnFiber newIdx c
      | none => .error (.thenableValue id)
  | .thenableChild _ resolved =>
      match resolved with
      | some c => updateFromMap existingChildren returnFiber newIdx c
      | none => .error .suspenseException
  | .invalidObject _ => .error .invalidObjectError
  | .boolChild _ => .ok none
  | .nullChild => .ok none
  | .undefinedChild => .ok none

/-- The first, position-aligned loop of `reconcileChildrenArray`.  Returns
the chain built so far, the parent, the next `newIdx`, `lastPlacedIndex`,
and the unconsumed suffixes of the old chain and of the new children (the
loop stops at the first slot miss or when either side runs out). -/
def arrayScanLoop (shouldTrackSideEffects : Bool) (returnFiber : RetFiber)
    (oldChain : List OldFiber) (newChildren : List Child)
    (newIdx lastPlacedIndex : Nat) :
    Except (JsThrow × RetFiber)
      (List NewFiber × RetFiber × Nat × Nat × List OldFiber × List Child) :=
  match oldChain, newChildren with
  | [], news => .ok ([], returnFiber, newIdx, lastPlacedIndex, [], news)
  | o :: orest, [] =>
      .ok ([], returnFiber, newIdx, lastPlacedIndex, o :: orest, [])
  | o :: orest, c :: crest =>
      -- `if (oldFiber.index > newIdx)`: the old node waits for its slot and
      -- the current slot is filled with no reuse candidate.
      let oldFiberOpt : Option OldFiber := if o.index > newIdx then none else some o
      match updateSlot returnFiber oldFiberOpt c with
      | .error e => .error (e, returnFiber)
      | .ok none =>
          -- Slot miss: stop this phase.  Whether the candidate was nulled or
          -- the keys mismatched, the old chain still starts at `o`.
          .ok ([], returnFiber, newIdx, lastPlacedIndex, o :: orest, c :: crest)
      | .ok (some newFiber) =>
          let returnFiber :=
            if shouldTrackSideEffects && oldFiberOpt.isSome
                && newFiber.alternate.isNone then
              -- Matched the slot but did not reuse the existing fiber.
              deleteChild shouldTrackSideEffects returnFiber o
            else returnFiber
          let pc := placeChild shouldTrackSideEffects newFiber lastPlacedIndex newIdx
          let nextOld := if o.index > newIdx then o :: orest else orest
          match arrayScanLoop shouldTrackSideEffects returnFiber nextOld crest
              (newIdx + 1) pc.2 with
          | .error e => .error e
          | .ok (chain, p, ni, lpi, oldRem, newsRem) =>
              .ok (pc.1 :: chain, p, ni, lpi, oldRem, newsRem)

/-- The fast-insert loop of `reconcileChildrenArray` (previous chain
exhausted: everything remaining is created fresh). -/
def arrayInsertLoop (shouldTrackSideEffects : Bool) (returnFiber : RetFiber)
    (newChildren : List Child) (newIdx lastPlacedIndex : Nat) :
    Except (JsThrow × RetFiber) (List NewFiber × RetFiber × Nat) :=
  match newChildren with
  | [] => .ok ([], returnFiber, lastPlacedIndex)
  | c :: crest =>
      match createChild returnFiber c with
      | .error e => .error (e, returnFiber)
      | .ok none =>
          arrayInsertLoop shouldTrackSideEffects returnFiber crest
            (newIdx + 1) lastPlacedIndex
      | .ok (some newFiber) =>
          let pc := placeChild shouldTrackSideEffects newFiber lastPlacedIndex newIdx
          match arrayInsertLoop shouldTrackSideEffects returnFiber crest
              (newIdx + 1) pc.2 with
          | .error e => .error e
          | .ok (chain, p, lpi) => .ok (pc.1 :: chain, p, lpi)

/-- The map-based loop of `reconcileChildrenArray`: each remaining new item
looks a candidate up in `existingChildren`; reused entries are removed from
the map so the final sweep only deletes the unconsumed ones. -/
def arrayMapLoop (shouldTrackSideEffects : Bool)
    (existingChildren : List (MapKey × OldFiber)) (returnFiber : RetFiber)
    (newChildren : List Child) (newIdx lastPlacedIndex : Nat) :
    Except (JsThrow × RetFiber)
      (List NewFiber × List (MapKey × OldFiber) × RetFiber × Nat) :=
  match newChildren with
  | [] => .ok ([], existingChildren, returnFiber, lastPlacedIndex)
  | c :: crest =>
      match updateFromMap existingChildren returnFiber newIdx c with
      | .error e => .error (e, returnFiber)
      | .ok none =>
          arrayMapLoop shouldTrackSideEffects existingChildren returnFiber crest
            (newIdx + 1) lastPlacedIndex
      | .ok (some newFiber) =>
          let existingChildren :=
            if shouldTrackSideEffects && newFiber.alternate.isSome then
              mapDelete existingChildren
                (match newFiber.key with
                 | none => .idx newIdx
                 | some k => .str k)
            else existingChildren
          let pc := placeChild shouldTrackSideEffects newFiber lastPlacedIndex newIdx
          match arrayMapLoop shouldTrackSideEffects existingChildren returnFiber
              crest (newIdx + 1) pc.2 with
          | .error e => .error e
          | .ok (chain, m, p, lpi) => .ok (pc.1 :: chain, m, p, lpi)

/-- `reconcileChildrenArray` (three phases: aligned scan, exhaustion
handling, keyed map).  Returns the new sibling chain and the updated
parent.  The hydration tree-fork bookkeeping (`getIsHydrating`,
`pushTreeFork`) is external and unmodelled. -/
def reconcileChildrenArray (shouldTrackSideEffects : Bool)
    (returnFiber : RetFiber) (currentFirstChild : List OldFiber)
    (newChildren : List Child) :
    Except (JsThrow × RetFiber) (List NewFiber × RetFiber) :=
  match arrayScanLoop shouldTrackSideEffects returnFiber currentFirstChild
      newChildren 0 0 with
  | .error e => .error e
  | .ok (chain1, p1, newIdx, lastPlacedIndex, oldRem, newsRem) =>
      match newsRem with
      | [] =>
          -- We've reached the end of the new children: delete the rest.
          .ok (chain1, deleteRemainingChildren shouldTrackSideEffects p1 oldRem)
      | _ :: _ =>
          match oldRem with
          | [] =>
              -- No existing children left: the rest are insertions.
              match arrayInsertLoop shouldTrackSideEffects p1 newsRem newIdx
                  lastPlacedIndex with
              | .error e => .error e
              | .ok (chain2, p2, _) => .ok (chain1 ++ chain2, p2)
          | _ :: _ =>
              let existingChildren := mapRemainingChildren oldRem
              match arrayMapLoop shouldTrackSideEffects existingChildren p1
                  newsRem newIdx lastPlacedIndex with
              | .error e => .error e
              | .ok (chain2, mRem, p2, _) =>
                  let p3 :=
                    if shouldTrackSideEffects then
                      mRem.foldl (fun p e => deleteChild shouldTrackSideEffects p e.2) p2
                    else p2
                  .ok (chain1 ++ chain2, p3)

/-- `reconcileSingleTextNode`: reuse a leading text fiber, else delete the
whole chain and create fresh. -/
def reconcileSingleTextNode (shouldTrackSideEffects : Bool)
    (returnFiber : RetFiber) (currentFirstChild : List OldFiber)
    (textContent : String) : NewFiber × RetFiber :=
  match currentFirstChild with
  | cur :: rest =>
      if cur.tag == .hostText then
        let returnFiber := deleteRemainingChildren shouldTrackSideEffects returnFiber rest
        ({ useFiber cur (.textProps textContent) with ret := some returnFiber.id },
         returnFiber)
      else
        let returnFiber :=
          deleteRemainingChildren shouldTrackSideEffects returnFiber (cur :: rest)
        ({ createFiberFromText textContent with ret := some returnFiber.id },
         returnFiber)
  | [] =>
      ({ createFiberFromText textContent with ret := some returnFiber.id },
       returnFiber)

/-- The creation fall-through at the bottom of `reconcileSingleElement`. -/
def createForSingleElement (returnFiber : RetFiber) (key : Option String)
    (etype : ElemType) (propsId : Nat) (elChildren : Child) : NewFiber :=
  match etype with
  | .fragment =>
      { createFiberFromFragment elChildren key with ret := some returnFiber.id }
  | .host _ =>
      { createFiberFromElement key etype propsId elChildren with
          ret := some returnFiber.id }

/-- `reconcileSingleElement`: scan the previous chain for the first fiber
with the element's key (`null` matching `null`); on a compatible type reuse
it and delete the rest, on an incompatible type delete from it onward and
create fresh; key mismatches delete the scanned fiber and continue. -/
def reconcileSingleElement (shouldTrackSideEffects : Bool)
    (key : Option String) (etype : ElemType) (propsId : Nat)
    (elChildren : Child) :
    RetFiber → List OldFiber → NewFiber × RetFiber
  | returnFiber, [] =>
      (createForSingleElement returnFiber key etype propsId elChildren,
       returnFiber)
  | returnFiber, child :: rest =>
      if child.key == key then
        match etype with
        | .fragment =>
            if child.tag == .fragment then
              let returnFiber :=
                deleteRemainingChildren shouldTrackSideEffects returnFiber rest
              ({ useFiber child (.fragProps elChildren) with
                   ret := some returnFiber.id }, returnFiber)
            else
              let returnFiber := deleteRemainingChildren shouldTrackSideEffects
                returnFiber (child :: rest)
              (createForSingleElement returnFiber key etype propsId elChildren,
               returnFiber)
        | .host _ =>
            if child.elemType == some etype then
              let returnFiber :=
                deleteRemainingChildren shouldTrackSideEffects returnFiber rest
              ({ useFiber child (.elemProps propsId elChildren) with
                   ret := some returnFiber.id }, returnFiber)
            else
              -- Key matched but the type did not: delete from here onward.
              let returnFiber := deleteRemainingChildren shouldTrackSideEffects
                returnFiber (child :: rest)
              (createForSingleElement returnFiber key etype propsId elChildren,
               returnFiber)
      else
        reconcileSingleElement shouldTrackSideEffects key etype propsId
          elChildren (deleteChild shouldTrackSideEffects returnFiber child) rest

mutual

/-- `reconcileChildFibersImpl`: a top-level unkeyed fragment is unwrapped to
its children; everything else is dispatched on its shape.  (Context reads,
portals and iterator children are outside the modelled child domain;
`thenableState`/`thenableIndexCounter` idempotence bookkeeping is external.) -/
def reconcileChildFibersImpl (disableLegacyMode shouldTrackSideEffects : Bool)
    (returnFiber : RetFiber) (currentFirstChild : List OldFiber)
    (newChild : Child) :
    Except (JsThrow × RetFiber) (Option NewFiber × RetFiber) :=
  match newChild with
  | .element none .fragment _ ch =>
      reconcileDispatch disableLegacyMode shouldTrackSideEffects returnFiber
        currentFirstChild ch
  | c =>
      reconcileDispatch disableLegacyMode shouldTrackSideEffects returnFiber
        currentFirstChild c
  termination_by (sizeOf newChild, 1)

/-- The dispatch body of `reconcileChildFibersImpl` after the top-level
fragment unwrap. -/
def reconcileDispatch (disableLegacyMode shouldTrackSideEffects : Bool)
    (returnFiber : RetFiber) (currentFirstChild : List OldFiber) (c : Child) :
    Except (JsThrow × RetFiber) (Option NewFiber × RetFiber) :=
  match c with
  | .element key etype propsId children =>
      let r := reconcileSingleElement shouldTrackSideEffects key etype propsId
        children returnFiber currentFirstChild
      .ok (some (placeSingleChild shouldTrackSideEffects r.1), r.2)
  | .lazyChild id resolved =>
      match resolved with
      | some rc =>
          reconcileChildFibersImpl disableLegacyMode shouldTrackSideEffects
            returnFiber currentFirstChild rc
      | none => .error (.thenableValue id, returnFiber)
  | .arr xs =>
      match reconcileChildrenArray shouldTrackSideEffects returnFiber
          currentFirstChild xs with
      | .error e => .error e
      | .ok (chain, p) => .ok (chain.head?, p)
  | .thenableChild _ resolved =>
      match resolved with
      | some rc =>
          reconcileChildFibersImpl disableLegacyMode shouldTrackSideEffects
            returnFiber currentFirstChild rc
      | none => .error (.suspenseException, returnFiber)
  | .textChild s =>
      if s != "" then
        let r := reconcileSingleTextNode shouldTrackSideEffects returnFiber
          currentFirstChild s
        .ok (some (placeSingleChild shouldTrackSideEffects r.1), r.2)
      else
        -- The empty string is treated as empty: delete everything.
        .ok (none, deleteRemainingChildren shouldTrackSideEffects returnFiber
          currentFirstChild)
  | .numChild n =>
      let r := reconcileSingleTextNode shouldTrackSideEffects returnFiber
        currentFirstChild (toString n)
      .ok (some (placeSingleChild shouldTrackSideEffects r.1), r.2)
  | .invalidObject _ => .error (.invalidObjectError, returnFiber)
  | .boolChild _ =>
      .ok (none, deleteRemainingChildren shouldTrackSideEffects returnFiber
        currentFirstChild)
  | .nullChild =>
      .ok (none, deleteRemainingChildren shouldTrackSideEffects returnFiber
        currentFirstChild)
  | .undefinedChild =>
      .ok (none, deleteRemainingChildren shouldTrackSideEffects returnFiber
        currentFirstChild)
  termination_by (sizeOf c, 0)

end

/-- `reconcileChildFibers`: the catch wrapper.  The suspension signal — and,
when legacy mode is still compiled in and the parent is not concurrent, a
raw thenable — is re-thrown unchanged; any other thrown value becomes a
synthetic throwing child attached to the parent. -/
def reconcileChildFibers (disableLegacyMode shouldTrackSideEffects : Bool)
    (returnFiber : RetFiber) (currentFirstChild : List OldFiber)
    (newChild : Child) :
    Except (JsThrow × RetFiber) (Option NewFiber × RetFiber) :=
  match reconcileChildFibersImpl disableLegacyMode shouldTrackSideEffects
      returnFiber currentFirstChild newChild with
  | .ok r => .ok r
  | .error (x, p) =>
      if x == .suspenseException
          || (!disableLegacyMode
              && (returnFiber.mode &&& ConcurrentMode) == NoMode
              && x.isThenable) then
        .error (x, p)
      else
        .ok (some { createFiberFromThrow x with ret := some returnFiber.id }, p)

/-! ## Claims C4, C5, C9, C10 -/

theorem placement_bit_set (x : Nat) :
    (x ||| (Placement ||| PlacementDEV)) &&& Placement ≠ 0 := by
  intro h
  have ht := congrArg (fun n => n.testBit 1) h
  simp only [Nat.testBit_and, Nat.testBit_or, Nat.zero_testBit] at ht
  rw [show Placement.testBit 1 = true from by decide] at ht
  simp at ht

/-- **C4.** With side-effect tracking on: a brand-new node (no alternate) is
marked for placement and leaves `lastPlacedIndex` unchanged; a reused node
moves (is marked) exactly when its previous index is below the high-water
mark, stays unmarked otherwise, and the returned `lastPlacedIndex` is the
maximum of the old mark and the node's previous index. -/
theorem placeChild_high_water_mark (f : NewFiber) (lastPlacedIndex newIndex : Nat) :
    (f.alternate = none →
      (placeChild true f lastPlacedIndex newIndex).1.flags &&& Placement ≠ 0
      ∧ (placeChild true f lastPlacedIndex newIndex).2 = lastPlacedIndex)
    ∧ (∀ cur, f.alternate = some cur → cur.index < lastPlacedIndex →
        (placeChild true f lastPlacedIndex newIndex).1.flags &&& Placement ≠ 0)
    ∧ (∀ cur, f.alternate = some cur → lastPlacedIndex ≤ cur.index →
        (placeChild true f lastPlacedIndex newIndex).1.flags = f.flags)
    ∧ (∀ cur, f.alternate = some cur →
        (placeChild true f lastPlacedIndex newIndex).2
          = max lastPlacedIndex cur.index) := by
  refine ⟨?_, ?_, ?_, ?_⟩
  · intro h
    simp [placeChild, h]
    exact placement_bit_set f.flags
  · intro cur h hlt
    simp [placeChild, h, hlt]
    exact placement_bit_set f.flags
  · intro cur h hge
    have hnlt : ¬cur.index < lastPlacedIndex := Nat.not_lt.mpr hge
    simp [placeChild, h, hnlt]
  · intro cur h
    by_cases hlt : cur.index < lastPlacedIndex
    · simp [placeChild, h, hlt]
      omega
    · simp [placeChild, h, hlt]
      omega

/-- Witness for C4 at a fresh node and at the two reused-node cases. -/
theorem placeChild_high_water_mark_witness :
    ((placeChild true
        ⟨.hostComponent, none, none, 0, 0, .textProps "", none, none⟩
        1 0).1.flags &&& Placement ≠ 0
      ∧ (placeChild true
        ⟨.hostComponent, none, none, 0, 0, .textProps "", none, none⟩
        1 0).2 = 1)
    ∧ (placeChild true
        ⟨.hostComponent, none, none, 0, 0, .textProps "",
          some ⟨7, .hostComponent, none, none, 5⟩, none⟩
        2 0).2 = max 2 5 :=
  ⟨(placeChild_high_water_mark
      ⟨.hostComponent, none, none, 0, 0, .textProps "", none, none⟩ 1 0).1 rfl,
   (placeChild_high_water_mark
      ⟨.hostComponent, none, none, 0, 0, .textProps "",
        some ⟨7, .hostComponent, none, none, 5⟩, none⟩ 2 0).2.2.2
      ⟨7, .hostComponent, none, none, 5⟩ rfl⟩

/-- **C5 (counterexample).** Reconciling previous keys `[A,B,C]` against new
keys `[C,A,B]` (same types) does *not* mark exactly `C`: the produced chain
is `[C,A,B]` with placement marks `[false,true,true]` — `C` is the unmarked
one and `A`,`B` are both marked. -/
theorem reconcileChildrenArray_CAB_claim_false :
    (reconcileChildrenArray true ⟨100, 1, [], 0⟩
        [⟨1, .hostComponent, some "A", some (.host "div"), 0⟩,
         ⟨2, .hostComponent, some "B", some (.host "div"), 1⟩,
         ⟨3, .hostComponent, some "C", some (.host "div"), 2⟩]
        [.element (some "C") (.host "div") 0 .nullChild,
         .element (some "A") (.host "div") 0 .nullChild,
         .element (some "B") (.host "div") 0 .nullChild]).toOption.map
      (fun r => (r.1.map (fun f => f.key),
                 r.1.map (fun f => decide (f.flags &&& Placement ≠ 0))))
      = some ([some "C", some "A", some "B"], [false, true, true])
    ∧ some ([some "C", some "A", some "B"], [false, true, true])
        ≠ some ([some "C", some "A", some "B"], [true, false, false]) := by
  constructor
  · decide
  · decide

/-- **C5 (amended).** For previous `[A,B,C]` and new `[C,A,B]`, all keys and
types equal: every node is reused (alternates `C,A,B`, no deletions), `C`
stays unmarked, and exactly the two nodes `A` and `B` are marked for
placement. -/
theorem reconcileChildrenArray_CAB_two_moves :
    (reconcileChildrenArray true ⟨100, 1, [], 0⟩
        [⟨1, .hostComponent, some "A", some (.host "div"), 0⟩,
         ⟨2, .hostComponent, some "B", some (.host "div"), 1⟩,
         ⟨3, .hostComponent, some "C", some (.host "div"), 2⟩]
        [.element (some "C") (.host "div") 0 .nullChild,
         .element (some "A") (.host "div") 0 .nullChild,
         .element (some "B") (.host "div") 0 .nullChild]).toOption.map
      (fun r => (r.1.map (fun f => f.key),
                 r.1.map (fun f => decide (f.flags &&& Placement ≠ 0)),
                 r.1.map (fun f => f.alternate.map OldFiber.id),
                 r.2.deletions))
      = some ([some "C", some "A", some "B"],
              [false, true, true],
              [some 3, some 1, some 2],
              []) := by
  decide

theorem reconcileSingleTextNode_tag (st : Bool) (p : RetFiber)
    (old : List OldFiber) (s : String) :
    (reconcileSingleTextNode st p old s).1.tag = .hostText := by
  match old with
  | [] => rfl
  | cur :: rest =>
      by_cases h : cur.tag = .hostText
      · simp [reconcileSingleTextNode, h, useFiber]
      · have h' : (cur.tag == FibTag.hostText) = false := by
          simp [h]
        simp [reconcileSingleTextNode, h', createFiberFromText]

theorem placeSingleChild_tag (st : Bool) (f : NewFiber) :
    (placeSingleChild st f).tag = f.tag := by
  unfold placeSingleChild
  split <;> rfl

/-- **C10.** Reconciling with `null`, `undefined`, a boolean, or the empty
string deletes every previous child and returns no child; every non-empty
string instead produces a text node. -/
theorem reconcileChildFibersImpl_empty_shapes (dLM : Bool) (p : RetFiber)
    (old : List OldFiber) (c : Child)
    (hc : c = .nullChild ∨ c = .undefinedChild ∨ (∃ b, c = .boolChild b)
      ∨ c = .textChild "") :
    reconcileChildFibersImpl dLM true p old c
        = .ok (none, deleteRemainingChildren true p old)
    ∧ ∀ s : String, s ≠ "" →
        ∃ f q, reconcileChildFibersImpl dLM true p old (.textChild s)
            = .ok (some f, q)
          ∧ f.tag = .hostText := by
  constructor
  · rcases hc with rfl | rfl | ⟨b, rfl⟩ | rfl <;>
      simp [reconcileChildFibersImpl, reconcileDispatch]
  · intro s hs
    refine ⟨placeSingleChild true (reconcileSingleTextNode true p old s).1,
            (reconcileSingleTextNode true p old s).2, ?_, ?_⟩
    · have hs' : (s != "") = true := by simpa using hs
      simp [reconcileChildFibersImpl, reconcileDispatch, hs']
    · rw [placeSingleChild_tag, reconcileSingleTextNode_tag]

/-- Witness for C10: a two-child previous chain against `null` and against
the string `"x"`. -/
theorem reconcileChildFibersImpl_empty_shapes_witness :
    reconcileChildFibersImpl false true ⟨9, 1, [], 0⟩
        [⟨1, .hostComponent, some "a", some (.host "div"), 0⟩,
         ⟨2, .hostText, none, none, 1⟩] .nullChild
      = .ok (none, deleteRemainingChildren true ⟨9, 1, [], 0⟩
          [⟨1, .hostComponent, some "a", some (.host "div"), 0⟩,
           ⟨2, .hostText, none, none, 1⟩])
    ∧ ∃ f q, reconcileChildFibersImpl false true ⟨9, 1, [], 0⟩
        [⟨1, .hostComponent, some "a", some (.host "div"), 0⟩,
         ⟨2, .hostText, none, none, 1⟩] (.textChild "x")
      = .ok (some f, q) ∧ f.tag = .hostText := by
  have h := reconcileChildFibersImpl_empty_shapes false ⟨9, 1, [], 0⟩
    [⟨1, .hostComponent, some "a", some (.host "div"), 0⟩,
     ⟨2, .hostText, none, none, 1⟩] .nullChild (Or.inl rfl)
  exact ⟨h.1, h.2 "x" (by decide)⟩

/-- **C9.** If reconciliation throws, `reconcileChildFibers` re-throws the
suspension signal unchanged (likewise a raw thenable when legacy mode is
compiled in and the parent is not concurrent); for every other thrown value
it returns a synthetic throwing child attached to the parent instead of
propagating. -/
theorem reconcileChildFibers_throw_policy (dLM st : Bool) (p : RetFiber)
    (old : List OldFiber) (c : Child) (x : JsThrow) (p' : RetFiber)
    (h : reconcileChildFibersImpl dLM st p old c = .error (x, p')) :
    reconcileChildFibers dLM st p old c
      = if x == .suspenseException
            || (!dLM && (p.mode &&& ConcurrentMode) == NoMode && x.isThenable) then
          .error (x, p')
        else
          .ok (some { createFiberFromThrow x with ret := some p.id }, p') := by
  simp [reconcileChildFibers, h]

/-- Witness for C9: an unsupported object shape throws and becomes a
throwing child; an unresolved thenable's suspension signal is re-thrown. -/
theorem reconcileChildFibers_throw_policy_witness :
    reconcileChildFibers false true ⟨9, 1, [], 0⟩ [] (.invalidObject 0)
      = .ok (some { createFiberFromThrow .invalidObjectError with
                      ret := some 9 }, ⟨9, 1, [], 0⟩)
    ∧ reconcileChildFibers false true ⟨9, 1, [], 0⟩ []
        (.thenableChild 4 none)
      = .error (.suspenseException, ⟨9, 1, [], 0⟩) := by
  constructor
  · have h := reconcileChildFibers_throw_policy false true ⟨9, 1, [], 0⟩ []
      (.invalidObject 0) .invalidObjectError ⟨9, 1, [], 0⟩
      (by simp [reconcileChildFibersImpl, reconcileDispatch])
    simpa using h
  · have h := reconcileChildFibers_throw_policy false true ⟨9, 1, [], 0⟩ []
      (.thenableChild 4 none) .suspenseException ⟨9, 1, [], 0⟩
      (by simp [reconcileChildFibersImpl, reconcileDispatch])
    simpa using h

/-! ## Claim C6: the single-element fast path -/

theorem deleteChild_deletions (p : RetFiber) (c : OldFiber) :
    (deleteChild true p c).deletions = p.deletions ++ [c] := by
  unfold deleteChild
  match h : p.deletions with
  | [] => simp [h]
  | _ :: _ => simp [h]

theorem deleteChild_id (p : RetFiber) (c : OldFiber) :
    (deleteChild true p c).id = p.id := by
  unfold deleteChild
  match h : p.deletions with
  | [] => simp [h]
  | _ :: _ => simp [h]

theorem foldl_deleteChild_deletions (l : List OldFiber) :
    ∀ p : RetFiber, (l.foldl (deleteChild true) p).deletions
      = p.deletions ++ l := by
  induction l with
  | nil => intro p; simp
  | cons c rest ih =>
      intro p
      simp only [List.foldl_cons]
      rw [ih, deleteChild_deletions]
      simp

theorem deleteRemainingChildren_eq_foldl (p : RetFiber) (l : List OldFiber) :
    deleteRemainingChildren true p l = l.foldl (deleteChild true) p := rfl

theorem deleteRemainingChildren_deletions (p : RetFiber) (l : List OldFiber) :
    (deleteRemainingChildren true p l).deletions = p.deletions ++ l := by
  rw [deleteRemainingChildren_eq_foldl, foldl_deleteChild_deletions]

theorem createForSingleElement_alternate (p : RetFiber) (key : Option String)
    (etype : ElemType) (pid : Nat) (ch : Child) :
    (createForSingleElement p key etype pid ch).alternate = none := by
  cases etype <;> rfl

theorem placeSingleChild_of_fresh (f : NewFiber) (h : f.alternate = none) :
    placeSingleChild true f
      = { f with flags := f.flags ||| (Placement ||| PlacementDEV) } := by
  simp [placeSingleChild, h]

theorem placeSingleChild_of_reused (f : NewFiber) (o : OldFiber)
    (h : f.alternate = some o) : placeSingleChild true f = f := by
  simp [placeSingleChild, h]

/-- The prefix of key misses of the single-element scan only accumulates
deletions. -/
theorem reconcileSingleElement_skip_misses (key : Option String)
    (etype : ElemType) (pid : Nat) (ch : Child) (pre : List OldFiber)
    (hpre : ∀ o ∈ pre, (o.key == key) = false) :
    ∀ (p : RetFiber) (rest : List OldFiber),
      reconcileSingleElement true key etype pid ch p (pre ++ rest)
        = reconcileSingleElement true key etype pid ch
            (pre.foldl (deleteChild true) p) rest := by
  induction pre with
  | nil => intro p rest; rfl
  | cons child pre' ih =>
      intro p rest
      have hc : (child.key == key) = false := hpre child (by simp)
      have hrest : ∀ o ∈ pre', (o.key == key) = false := by
        intro o ho; exact hpre o (by simp [ho])
      simp only [List.cons_append, reconcileSingleElement, hc,
        Bool.false_eq_true, if_false, List.foldl_cons]
      exact ih hrest (deleteChild true p child) rest

/-- **C6.** Single-element reconciliation against a previous chain: (c) with
no key match every sibling is deleted and a fresh, placement-marked node is
created; (a) at the first key match with a compatible type that sibling is
reused (alternate kept, index reset, no placement — `placeSingleChild` is
the identity on it) and every other sibling, before and after the match, is
deleted; (b) at the first key match with an incompatible type that sibling
and everything after it (and the earlier misses) are deleted and a fresh,
placement-marked node is created. -/
theorem reconcileSingleElement_scan_spec (p : RetFiber) (name : String)
    (key : Option String) (pid : Nat) (ch : Child) :
    (∀ chain : List OldFiber, (∀ o ∈ chain, o.key ≠ key) →
      ∃ f p', reconcileSingleElement true key (.host name) pid ch p chain = (f, p')
        ∧ (placeSingleChild true f).alternate = none
        ∧ (placeSingleChild true f).flags &&& Placement ≠ 0
        ∧ p'.deletions = p.deletions ++ chain)
    ∧ (∀ (pre : List OldFiber) (o : OldFiber) (post : List OldFiber),
        (∀ o' ∈ pre, o'.key ≠ key) → o.key = key
        → o.elemType = some (.host name) →
      ∃ f p', reconcileSingleElement true key (.host name) pid ch p
            (pre ++ o :: post) = (f, p')
        ∧ placeSingleChild true f = f
        ∧ f.alternate = some o ∧ f.index = 0 ∧ f.flags &&& Placement = 0
        ∧ p'.deletions = p.deletions ++ pre ++ post)
    ∧ (∀ (pre : List OldFiber) (o : OldFiber) (post : List OldFiber),
        (∀ o' ∈ pre, o'.key ≠ key) → o.key = key
        → o.elemType ≠ some (.host name) →
      ∃ f p', reconcileSingleElement true key (.host name) pid ch p
            (pre ++ o :: post) = (f, p')
        ∧ (placeSingleChild true f).alternate = none
        ∧ (placeSingleChild true f).flags &&& Placement ≠ 0
        ∧ p'.deletions = p.deletions ++ pre ++ (o :: post)) := by
  have hmark : ∀ (q : RetFiber),
      (placeSingleChild true (createForSingleElement q key (.host name) pid ch)).alternate = none
      ∧ (placeSingleChild true (createForSingleElement q key (.host name) pid ch)).flags
          &&& Placement ≠ 0 := by
    intro q
    rw [placeSingleChild_of_fresh _ (createForSingleElement_alternate q key _ pid ch)]
    refine ⟨createForSingleElement_alternate q key _ pid ch, ?_⟩
    exact placement_bit_set _
  refine ⟨?_, ?_, ?_⟩
  · intro chain
    induction chain generalizing p with
    | nil =>
        intro _
        exact ⟨_, _, rfl, (hmark p).1, (hmark p).2, by simp⟩
    | cons o rest ih =>
        intro hk
        have ho : (o.key == key) = false := by
          simpa using hk o (by simp)
        have hrest : ∀ o' ∈ rest, o'.key ≠ key := by
          intro o' ho'; exact hk o' (by simp [ho'])
        obtain ⟨f, p', heq, h1, h2, h3⟩ := ih (deleteChild true p o) hrest
        refine ⟨f, p', ?_, h1, h2, ?_⟩
        · simpa [reconcileSingleElement, ho] using heq
        · rw [h3, deleteChild_deletions]
          simp
  · intro pre o post hpre ho htype
    have hpre' : ∀ o' ∈ pre, (o'.key == key) = false := by
      intro o' h; simpa using hpre o' h
    rw [reconcileSingleElement_skip_misses key _ pid ch pre hpre']
    have hkeq : (o.key == key) = true := by simpa using ho
    have hteq : (o.elemType == some (ElemType.host name)) = true := by
      simpa using htype
    refine ⟨{ useFiber o (.elemProps pid ch) with
                ret := some (deleteRemainingChildren true
                  (pre.foldl (deleteChild true) p) post).id },
            deleteRemainingChildren true (pre.foldl (deleteChild true) p) post,
            ?_, ?_, rfl, rfl, ?_, ?_⟩
    · simp only [reconcileSingleElement, hkeq, if_true, hteq]
    · exact placeSingleChild_of_reused _ o rfl
    · simp [useFiber]
    · rw [deleteRemainingChildren_deletions, foldl_deleteChild_deletions]
  · intro pre o post hpre ho htype
    have hpre' : ∀ o' ∈ pre, (o'.key == key) = false := by
      intro o' h; simpa using hpre o' h
    rw [reconcileSingleElement_skip_misses key _ pid ch pre hpre']
    have hkeq : (o.key == key) = true := by simpa using ho
    have hteq : (o.elemType == some (ElemType.host name)) = false := by
      simpa using htype
    refine ⟨createForSingleElement
              (deleteRemainingChildren true (pre.foldl (deleteChild true) p)
                (o :: post)) key (.host name) pid ch,
            deleteRemainingChildren true (pre.foldl (deleteChild true) p)
              (o :: post),
            ?_, (hmark _).1, (hmark _).2, ?_⟩
    · simp only [reconcileSingleElement, hkeq, if_true, hteq,
        Bool.false_eq_true, if_false]
    · rw [deleteRemainingChildren_deletions, foldl_deleteChild_deletions]

/-- Witness for C6, case (a): previous keys `[x, a, y]`, new single element
keyed `a` of the same host type — reuse of the middle sibling, deletion of
the outer two, no placement. -/
theorem reconcileSingleElement_scan_spec_witness :
    ∃ f p', reconcileSingleElement true (some "a") (.host "div") 0 .nullChild
        ⟨9, 1, [], 0⟩
        [⟨1, .hostComponent, some "x", some (.host "div"), 0⟩,
         ⟨2, .hostComponent, some "a", some (.host "div"), 1⟩,
         ⟨3, .hostComponent, some "y", some (.host "div"), 2⟩] = (f, p')
      ∧ placeSingleChild true f = f
      ∧ f.alternate = some ⟨2, .hostComponent, some "a", some (.host "div"), 1⟩
      ∧ f.index = 0 ∧ f.flags &&& Placement = 0
      ∧ p'.deletions = [] ++ [⟨1, .hostComponent, some "x", some (.host "div"), 0⟩]
          ++ [⟨3, .hostComponent, some "y", some (.host "div"), 2⟩] :=
  (reconcileSingleElement_scan_spec ⟨9, 1, [], 0⟩ "div" (some "a") 0
      .nullChild).2.1
    [⟨1, .hostComponent, some "x", some (.host "div"), 0⟩]
    ⟨2, .hostComponent, some "a", some (.host "div"), 1⟩
    [⟨3, .hostComponent, some "y", some (.host "div"), 2⟩]
    (by decide) rfl rfl

/-! ## Claim C7: deletion completeness of the array reconciler

The bookkeeping is counted per fiber identity: for every id, the deletions
recorded on the parent, the reuses visible as `alternate` links in the new
chain, and the not-yet-consumed old fibers always balance against the
original chain. -/

def delCount (p : RetFiber) (i : Nat) : Nat :=
  p.deletions.countP (fun d => d.id == i)

def reuseCount (chain : List NewFiber) (i : Nat) : Nat :=
  chain.countP (fun f => f.alternate.map OldFiber.id == some i)

def oldCount (l : List OldFiber) (i : Nat) : Nat :=
  l.countP (fun o => o.id == i)

def mapValCount (m : List (MapKey × OldFiber)) (i : Nat) : Nat :=
  m.countP (fun e => e.2.id == i)

theorem delCount_deleteChild (p : RetFiber) (c : OldFiber) (i : Nat) :
    delCount (deleteChild true p c) i
      = delCount p i + (if c.id == i then 1 else 0) := by
  unfold delCount
  rw [deleteChild_deletions, List.countP_append]
  simp [List.countP_cons]

theorem delCount_deleteRemaining (p : RetFiber) (l : List OldFiber) (i : Nat) :
    delCount (deleteRemainingChildren true p l) i = delCount p i + oldCount l i := by
  unfold delCount oldCount
  rw [deleteRemainingChildren_deletions, List.countP_append]

theorem placeChild_alternate (st : Bool) (f : NewFiber) (l n : Nat) :
    (placeChild st f l n).1.alternate = f.alternate := by
  rcases f with ⟨tag, key, et, idx, fl, pp, alt, ret⟩
  cases alt <;> simp [placeChild] <;> split <;> first | rfl | (split <;> rfl)

theorem placeChild_key (st : Bool) (f : NewFiber) (l n : Nat) :
    (placeChild st f l n).1.key = f.key := by
  rcases f with ⟨tag, key, et, idx, fl, pp, alt, ret⟩
  cases alt <;> simp [placeChild] <;> split <;> first | rfl | (split <;> rfl)

theorem updateTextNode_alt (p : RetFiber) (cur : Option OldFiber) (s : String) :
    (updateTextNode p cur s).alternate = none
    ∨ ∃ o, cur = some o ∧ (updateTextNode p cur s).alternate = some o
        ∧ (updateTextNode p cur s).key = o.key := by
  match cur with
  | none => exact Or.inl rfl
  | some o =>
      by_cases h : (o.tag != FibTag.hostText) = true
      · exact Or.inl (by simp [updateTextNode, h, createFiberFromText])
      · simp only [Bool.not_eq_true] at h
        exact Or.inr ⟨o, rfl, by simp [updateTextNode, h, useFiber],
          by simp [updateTextNode, h, useFiber]⟩

theorem updateFragment_alt (p : RetFiber) (cur : Option OldFiber)
    (fr : Child) (k : Option String) :
    (updateFragment p cur fr k).alternate = none
    ∨ ∃ o, cur = some o ∧ (updateFragment p cur fr k).alternate = some o
        ∧ (updateFragment p cur fr k).key = o.key := by
  match cur with
  | none => exact Or.inl rfl
  | some o =>
      by_cases h : (o.tag != FibTag.fragment) = true
      · exact Or.inl (by simp [updateFragment, h, createFiberFromFragment])
      · simp only [Bool.not_eq_true] at h
        exact Or.inr ⟨o, rfl, by simp [updateFragment, h, useFiber],
          by simp [updateFragment, h, useFiber]⟩

theorem updateElement_alt (p : RetFiber) (cur : Option OldFiber)
    (k : Option String) (etype : ElemType) (pid : Nat) (ch : Child) :
    (updateElement p cur k etype pid ch).alternate = none
    ∨ ∃ o, cur = some o ∧ (updateElement p cur k etype pid ch).alternate = some o
        ∧ (updateElement p cur k etype pid ch).key = o.key := by
  match etype with
  | .fragment => exact updateFragment_alt p cur ch k
  | .host name =>
      match cur with
      | none => exact Or.inl (by simp [updateElement, createFiberFromElement])
      | some o =>
          by_cases h : (o.elemType == some (ElemType.host name)) = true
          · exact Or.inr ⟨o, rfl, by simp [updateElement, h, useFiber],
              by simp [updateElement, h, useFiber]⟩
          · have h' : (o.elemType == some (ElemType.host name)) = false := by
              simpa using h
            exact Or.inl (by simp [updateElement, h', createFiberFromElement])

theorem createChild_alt (p : RetFiber) (c : Child) (nf : NewFiber)
    (h : createChild p c = .ok (some nf)) : nf.alternate = none := by
  match c with
  | .element key etype pid ch =>
      match etype with
      | .fragment =>
          simp [createChild, createFiberFromElement, createFiberFromFragment] at h
          rw [← h]
      | .host name =>
          simp [createChild, createFiberFromElement] at h
          rw [← h]
  | .textChild s =>
      by_cases hs : (s != "") = true
      · simp [createChild, hs, createFiberFromText] at h
        rw [← h]
      · have hs' : (s != "") = false := by simpa using hs
        simp [createChild, hs'] at h
  | .numChild n => simp [createChild, createFiberFromText] at h; rw [← h]
  | .boolChild b => simp [createChild] at h
  | .nullChild => simp [createChild] at h
  | .undefinedChild => simp [createChild] at h
  | .arr xs => simp [createChild, createFiberFromFragment] at h; rw [← h]
  | .thenableChild id resolved =>
      match resolved with
      | some rc => exact createChild_alt p rc nf (by simpa [createChild] using h)
      | none => simp [createChild] at h
  | .lazyChild id resolved =>
      match resolved with
      | some rc => exact createChild_alt p rc nf (by simpa [createChild] using h)
      | none => simp [createChild] at h
  | .invalidObject id => simp [createChild] at h

theorem updateSlot_alt (p : RetFiber) (cur : Option OldFiber) (c : Child)
    (nf : NewFiber) (h : updateSlot p cur c = .ok (some nf)) :
    nf.alternate = none ∨ ∃ o, cur = some o ∧ nf.alternate = some o := by
  match c with
  | .element ekey etype pid ch =>
      by_cases hk : (ekey == oldFiberKey cur) = true
      · have hnf : updateElement p cur ekey etype pid ch = nf := by
          simpa [updateSlot, hk] using h
        rcases updateElement_alt p cur ekey etype pid ch with ha | ⟨o, ho, ha, _⟩
        · exact Or.inl (hnf ▸ ha)
        · exact Or.inr ⟨o, ho, hnf ▸ ha⟩
      · have hk' : (ekey == oldFiberKey cur) = false := by simpa using hk
        simp [updateSlot, hk'] at h
  | .textChild s =>
      by_cases hs : (s != "") = true
      · by_cases hkey : (oldFiberKey cur != none) = true
        · simp [updateSlot, hs, hkey] at h
        · have hkey' : (oldFiberKey cur != none) = false := by simpa using hkey
          have hnf : updateTextNode p cur s = nf := by
            simpa [updateSlot, hs, hkey'] using h
          rcases updateTextNode_alt p cur s with ha | ⟨o, ho, ha, _⟩
          · exact Or.inl (hnf ▸ ha)
          · exact Or.inr ⟨o, ho, hnf ▸ ha⟩
      · have hs' : (s != "") = false := by simpa using hs
        simp [updateSlot, hs'] at h
  | .numChild n =>
      by_cases hkey : (oldFiberKey cur != none) = true
      · simp [updateSlot, hkey] at h
      · have hkey' : (oldFiberKey cur != none) = false := by simpa using hkey
        have hnf : updateTextNode p cur (toString n) = nf := by
          simpa [updateSlot, hkey'] using h
        rcases updateTextNode_alt p cur (toString n) with ha | ⟨o, ho, ha, _⟩
        · exact Or.inl (hnf ▸ ha)
        · exact Or.inr ⟨o, ho, hnf ▸ ha⟩
  | .boolChild b => simp [updateSlot] at h
  | .nullChild => simp [updateSlot] at h
  | .undefinedChild => simp [updateSlot] at h
  | .arr xs =>
      by_cases hkey : (oldFiberKey cur != none) = true
      · simp [updateSlot, hkey] at h
      · have hkey' : (oldFiberKey cur != none) = false := by simpa using hkey
        have hnf : updateFragment p cur (.arr xs) none = nf := by
          simpa [updateSlot, hkey'] using h
        rcases updateFragment_alt p cur (.arr xs) none with ha | ⟨o, ho, ha, _⟩
        · exact Or.inl (hnf ▸ ha)
        · exact Or.inr ⟨o, ho, hnf ▸ ha⟩
  | .thenableChild id resolved =>
      match resolved with
      | some rc => exact updateSlot_alt p cur rc nf (by simpa [updateSlot] using h)
      | none => simp [updateSlot] at h
  | .lazyChild id resolved =>
      match resolved with
      | some rc => exact updateSlot_alt p cur rc nf (by simpa [updateSlot] using h)
      | none => simp [updateSlot] at h
  | .invalidObject id => simp [updateSlot] at h

/-- Entries of the `existingChildren` map are keyed consistently: each entry's
key is its fiber's explicit key or implicit index. -/
def MapEntriesWF (m : List (MapKey × OldFiber)) : Prop :=
  ∀ e ∈ m, e.1 = mapKeyOf e.2

theorem mapGet_some_elim (m : List (MapKey × OldFiber)) (K : MapKey)
    (o : OldFiber) (h : mapGet m K = some o) :
    ∃ e ∈ m, e.1 = K ∧ e.2 = o := by
  unfold mapGet at h
  cases hf : m.find? (fun e => e.1 == K) with
  | none => rw [hf] at h; simp at h
  | some e =>
      rw [hf] at h
      simp only [Option.map_some', Option.some.injEq] at h
      have hm := List.mem_of_find?_eq_some hf
      have hp := List.find?_some hf
      simp only [beq_iff_eq] at hp
      exact ⟨e, hm, hp, h⟩

theorem mapGet_idx_key_none (m : List (MapKey × OldFiber)) (n : Nat)
    (o : OldFiber) (hwf : MapEntriesWF m) (h : mapGet m (.idx n) = some o) :
    o.key = none := by
  obtain ⟨e, hm, h1, h2⟩ := mapGet_some_elim m (.idx n) o h
  have := hwf e hm
  rw [h1, h2] at this
  cases hk : o.key with
  | none => rfl
  | some k => simp [mapKeyOf, hk] at this

theorem mapGet_str_key_some (m : List (MapKey × OldFiber)) (k : String)
    (o : OldFiber) (hwf : MapEntriesWF m) (h : mapGet m (.str k) = some o) :
    o.key = some k := by
  obtain ⟨e, hm, h1, h2⟩ := mapGet_some_elim m (.str k) o h
  have := hwf e hm
  rw [h1, h2] at this
  cases hk : o.key with
  | none => simp [mapKeyOf, hk] at this
  | some k' =>
      simp [mapKeyOf, hk] at this
      exact congrArg some this.symm

/-- Removing a found entry: the counted contents of the map lose exactly that
entry (`find?` and `eraseP` pick the same first match). -/
theorem mapGet_delete_countP (m : List (MapKey × OldFiber)) (K : MapKey)
    (o : OldFiber) (h : mapGet m K = some o) (q : MapKey × OldFiber → Bool) :
    m.countP q = (mapDelete m K).countP q + (if q (K, o) then 1 else 0) := by
  induction m with
  | nil => simp [mapGet] at h
  | cons e rest ih =>
      by_cases he : (e.1 == K) = true
      · have heK : e.1 = K := by simpa using he
        have heo : e.2 = o := by
          have : mapGet (e :: rest) K = some e.2 := by
            simp [mapGet, List.find?_cons, he]
          rw [this] at h
          simpa using h
        have hekv : e = (K, o) := by
          rcases e with ⟨k1, v1⟩
          simp only at heK heo
          rw [heK, heo]
        have hdel : mapDelete (e :: rest) K = rest := by
          simp [mapDelete, List.eraseP_cons, he]
        rw [hdel, List.countP_cons, hekv]
      · have he' : (e.1 == K) = false := by simpa using he
        have hget : mapGet rest K = some o := by
          simpa [mapGet, List.find?_cons, he'] using h
        have hdel : mapDelete (e :: rest) K = e :: mapDelete rest K := by
          simp [mapDelete, List.eraseP_cons, he']
        rw [hdel, List.countP_cons, List.countP_cons, ih hget]
        omega

theorem MapEntriesWF_delete (m : List (MapKey × OldFiber)) (K : MapKey)
    (hwf : MapEntriesWF m) : MapEntriesWF (mapDelete m K) := by
  intro e he
  exact hwf e ((List.eraseP_sublist m).subset he)

/-- The key the map-phase loop uses to remove a consumed entry. -/
def consumedMapKey (nf : NewFiber) (newIdx : Nat) : MapKey :=
  match nf.key with
  | none => .idx newIdx
  | some k => .str k

theorem updateFromMap_alt (m : List (MapKey × OldFiber)) (p : RetFiber)
    (ni : Nat) (c : Child) (nf : NewFiber) (hwf : MapEntriesWF m)
    (h : updateFromMap m p ni c = .ok (some nf)) :
    nf.alternate = none
    ∨ ∃ o, nf.alternate = some o ∧ mapGet m (consumedMapKey nf ni) = some o := by
  match c with
  | .element ekey etype pid ch =>
      match ekey with
      | none =>
          have hnf : updateElement p (mapGet m (.idx ni)) none etype pid ch
              = nf := by
            simpa [updateFromMap] using h
          rcases updateElement_alt p (mapGet m (.idx ni)) none etype pid ch with
            ha | ⟨o, ho, ha, hkey⟩
          · exact Or.inl (hnf ▸ ha)
          · refine Or.inr ⟨o, hnf ▸ ha, ?_⟩
            have hnfkey : nf.key = o.key := hnf ▸ hkey
            have hkn : o.key = none := mapGet_idx_key_none m ni o hwf ho
            rw [show consumedMapKey nf ni = .idx ni from by
              unfold consumedMapKey; rw [hnfkey, hkn]]
            exact ho
      | some k =>
          have hnf : updateElement p (mapGet m (.str k)) (some k) etype pid ch
              = nf := by
            simpa [updateFromMap] using h
          rcases updateElement_alt p (mapGet m (.str k)) (some k) etype pid ch with
            ha | ⟨o, ho, ha, hkey⟩
          · exact Or.inl (hnf ▸ ha)
          · refine Or.inr ⟨o, hnf ▸ ha, ?_⟩
            have hnfkey : nf.key = o.key := hnf ▸ hkey
            have hks : o.key = some k := mapGet_str_key_some m k o hwf ho
            rw [show consumedMapKey nf ni = .str k from by
              unfold consumedMapKey; rw [hnfkey, hks]]
            exact ho
  | .textChild s =>
      by_cases hs : (s != "") = true
      · have hnf : updateTextNode p (mapGet m (.idx ni)) s = nf := by
          simpa [updateFromMap, hs] using h
        rcases updateTextNode_alt p (mapGet m (.idx ni)) s with ha | ⟨o, ho, ha, hkey⟩
        · exact Or.inl (hnf ▸ ha)
        · refine Or.inr ⟨o, hnf ▸ ha, ?_⟩
          have hnfkey : nf.key = o.key := hnf ▸ hkey
          have hkn : o.key = none := mapGet_idx_key_none m ni o hwf ho
          rw [show consumedMapKey nf ni = .idx ni from by
            unfold consumedMapKey; rw [hnfkey, hkn]]
          exact ho
      · have hs' : (s != "") = false := by simpa using hs
        simp [updateFromMap, hs'] at h
  | .numChild n =>
      have hnf : updateTextNode p (mapGet m (.idx ni)) (toString n) = nf := by
        simpa [updateFromMap] using h
      rcases updateTextNode_alt p (mapGet m (.idx ni)) (toString n) with
        ha | ⟨o, ho, ha, hkey⟩
      · exact Or.inl (hnf ▸ ha)
      · refine Or.inr ⟨o, hnf ▸ ha, ?_⟩
        have hnfkey : nf.key = o.key := hnf ▸ hkey
        have hkn : o.key = none := mapGet_idx_key_none m ni o hwf ho
        rw [show consumedMapKey nf ni = .idx ni from by
          unfold consumedMapKey; rw [hnfkey, hkn]]
        exact ho
  | .arr xs =>
      have hnf : updateFragment p (mapGet m (.idx ni)) (.arr xs) none = nf := by
        simpa [updateFromMap] using h
      rcases updateFragment_alt p (mapGet m (.idx ni)) (.arr xs) none with
        ha | ⟨o, ho, ha, hkey⟩
      · exact Or.inl (hnf ▸ ha)
      · refine Or.inr ⟨o, hnf ▸ ha, ?_⟩
        have hnfkey : nf.key = o.key := hnf ▸ hkey
        have hkn : o.key = none := mapGet_idx_key_none m ni o hwf ho
        rw [show consumedMapKey nf ni = .idx ni from by
          unfold consumedMapKey; rw [hnfkey, hkn]]
        exact ho
  | .boolChild b => simp [updateFromMap] at h
  | .nullChild => simp [updateFromMap] at h
  | .undefinedChild => simp [updateFromMap] at h
  | .thenableChild id resolved =>
      match resolved with
      | some rc =>
          exact updateFromMap_alt m p ni rc nf hwf (by simpa [updateFromMap] using h)
      | none => simp [updateFromMap] at h
  | .lazyChild id resolved =>
      match resolved with
      | some rc =>
          exact updateFromMap_alt m p ni rc nf hwf (by simpa [updateFromMap] using h)
      | none => simp [updateFromMap] at h
  | .invalidObject id => simp [updateFromMap] at h

theorem reuseCount_cons (f : NewFiber) (chain : List NewFiber) (i : Nat) :
    reuseCount (f :: chain) i
      = reuseCount chain i
        + (if f.alternate.map OldFiber.id == some i then 1 else 0) :=
  List.countP_cons _ f chain

theorem oldCount_cons (o : OldFiber) (l : List OldFiber) (i : Nat) :
    oldCount (o :: l) i = oldCount l i + (if o.id == i then 1 else 0) :=
  List.countP_cons _ o l

theorem reuseCount_append (c1 c2 : List NewFiber) (i : Nat) :
    reuseCount (c1 ++ c2) i = reuseCount c1 i + reuseCount c2 i :=
  List.countP_append _ c1 c2

/-- Phase 1 (the aligned scan): deletions, reuses and the unconsumed old
suffix always balance the old chain, and what remains is a suffix. -/
theorem arrayScanLoop_ids (news : List Child) :
    ∀ (p : RetFiber) (old : List OldFiber) (ni lpi : Nat)
      (chain1 : List NewFiber) (p1 : RetFiber) (ni' lpi' : Nat)
      (oldRem : List OldFiber) (newsRem : List Child),
      arrayScanLoop true p old news ni lpi
        = .ok (chain1, p1, ni', lpi', oldRem, newsRem) →
      (∀ i, delCount p1 i + reuseCount chain1 i + oldCount oldRem i
          = delCount p i + oldCount old i)
      ∧ ∃ consumed, old = consumed ++ oldRem := by
  induction news with
  | nil =>
      intro p old ni lpi chain1 p1 ni' lpi' oldRem newsRem h
      match old with
      | [] =>
          simp only [arrayScanLoop, Except.ok.injEq, Prod.mk.injEq] at h
          obtain ⟨h1, h2, _, _, h5, _⟩ := h
          subst h1; subst h2; subst h5
          exact ⟨fun i => by simp [reuseCount, oldCount], [], rfl⟩
      | o :: orest =>
          simp only [arrayScanLoop, Except.ok.injEq, Prod.mk.injEq] at h
          obtain ⟨h1, h2, _, _, h5, _⟩ := h
          subst h1; subst h2; subst h5
          exact ⟨fun i => by simp [reuseCount], [], rfl⟩
  | cons c crest ih =>
      intro p old ni lpi chain1 p1 ni' lpi' oldRem newsRem h
      match old with
      | [] =>
          simp only [arrayScanLoop, Except.ok.injEq, Prod.mk.injEq] at h
          obtain ⟨h1, h2, _, _, h5, _⟩ := h
          subst h1; subst h2; subst h5
          exact ⟨fun i => by simp [reuseCount, oldCount], [], rfl⟩
      | o :: orest =>
          rw [arrayScanLoop] at h
          rcases hslot : updateSlot p (if o.index > ni then none else some o) c with
            e | v
          · rw [hslot] at h; simp at h
          · rw [hslot] at h
            match v with
            | none =>
                simp only [Except.ok.injEq, Prod.mk.injEq] at h
                obtain ⟨h1, h2, _, _, h5, _⟩ := h
                subst h1; subst h2; subst h5
                exact ⟨fun i => by simp [reuseCount], [], rfl⟩
            | some nf =>
                by_cases hidx : o.index > ni
                · -- the old node waits for its slot; no reuse, no delete
                  rw [if_pos hidx] at hslot
                  have halt : nf.alternate = none := by
                    rcases updateSlot_alt p none c nf hslot with ha | ⟨o', ho', _⟩
                    · exact ha
                    · exact absurd ho' (by simp)
                  simp only [if_pos hidx, Option.isSome_none, Bool.true_and,
                    Bool.false_and, Bool.false_eq_true, if_false] at h
                  rcases hrec : arrayScanLoop true p (o :: orest) crest (ni + 1)
                      (placeChild true nf lpi ni).2 with e | tup
                  · rw [hrec] at h; simp at h
                  · rw [hrec] at h
                    obtain ⟨chain', p1', ni'', lpi'', oldRem', newsRem'⟩ := tup
                    simp only [Except.ok.injEq, Prod.mk.injEq] at h
                    obtain ⟨h1, h2, _, _, h5, _⟩ := h
                    obtain ⟨heq, consumed, hcons⟩ :=
                      ih p (o :: orest) (ni + 1) (placeChild true nf lpi ni).2
                        chain' p1' ni'' lpi'' oldRem' newsRem' hrec
                    subst h1; subst h2; subst h5
                    refine ⟨fun i => ?_, consumed, hcons⟩
                    rw [reuseCount_cons]
                    rw [placeChild_alternate, halt]
                    have := heq i
                    have h0 : (if (Option.map OldFiber.id
                        (none : Option OldFiber) == some i) = true
                        then 1 else 0) = 0 := rfl
                    rw [h0]
                    omega
                · rw [if_neg hidx] at hslot
                  simp only [if_neg hidx] at h
                  rcases updateSlot_alt p (some o) c nf hslot with halt | ⟨o', ho', halt⟩
                  · -- fresh replacement for the matched slot: the old child is
                    -- deleted here
                    simp only [halt, Option.isSome_some, Option.isNone_none,
                      Bool.true_and, Bool.and_true, if_true] at h
                    rcases hrec : arrayScanLoop true (deleteChild true p o) orest
                        crest (ni + 1) (placeChild true nf lpi ni).2 with e | tup
                    · rw [hrec] at h; simp at h
                    · rw [hrec] at h
                      obtain ⟨chain', p1', ni'', lpi'', oldRem', newsRem'⟩ := tup
                      simp only [Except.ok.injEq, Prod.mk.injEq] at h
                      obtain ⟨h1, h2, _, _, h5, _⟩ := h
                      obtain ⟨heq, consumed, hcons⟩ :=
                        ih (deleteChild true p o) orest (ni + 1)
                          (placeChild true nf lpi ni).2
                          chain' p1' ni'' lpi'' oldRem' newsRem' hrec
                      subst h1; subst h2; subst h5
                      refine ⟨fun i => ?_, o :: consumed, by rw [hcons]; rfl⟩
                      rw [reuseCount_cons, placeChild_alternate, halt,
                        oldCount_cons]
                      have := heq i
                      rw [delCount_deleteChild] at this
                      have h0 : (if (Option.map OldFiber.id
                          (none : Option OldFiber) == some i) = true
                          then 1 else 0) = 0 := rfl
                      rw [h0]
                      omega
                  · -- the old child is reused
                    injection ho' with hoo
                    subst hoo
                    simp only [halt, Option.isSome_some, Option.isNone_some,
                      Bool.true_and, Bool.and_false, Bool.false_eq_true,
                      if_false] at h
                    rcases hrec : arrayScanLoop true p orest crest (ni + 1)
                        (placeChild true nf lpi ni).2 with e | tup
                    · rw [hrec] at h; simp at h
                    · rw [hrec] at h
                      obtain ⟨chain', p1', ni'', lpi'', oldRem', newsRem'⟩ := tup
                      simp only [Except.ok.injEq, Prod.mk.injEq] at h
                      obtain ⟨h1, h2, _, _, h5, _⟩ := h
                      obtain ⟨heq, consumed, hcons⟩ :=
                        ih p orest (ni + 1) (placeChild true nf lpi ni).2
                          chain' p1' ni'' lpi'' oldRem' newsRem' hrec
                      subst h1; subst h2; subst h5
                      refine ⟨fun i => ?_, o :: consumed, by rw [hcons]; rfl⟩
                      rw [reuseCount_cons, placeChild_alternate, halt,
                        oldCount_cons]
                      have := heq i
                      have hpred : (if (Option.map OldFiber.id
                          (some o : Option OldFiber) == some i) = true
                          then 1 else 0)
                        = (if (o.id == i) = true then 1 else 0) := rfl
                      rw [hpred]
                      omega

/-- Phase 3a (fast insert): only fresh fibers are produced and the parent is
untouched. -/
theorem arrayInsertLoop_ids (news : List Child) :
    ∀ (p : RetFiber) (ni lpi : Nat) (chain2 : List NewFiber) (p2 : RetFiber)
      (lpi' : Nat),
      arrayInsertLoop true p news ni lpi = .ok (chain2, p2, lpi') →
      p2 = p ∧ ∀ i, reuseCount chain2 i = 0 := by
  induction news with
  | nil =>
      intro p ni lpi chain2 p2 lpi' h
      simp only [arrayInsertLoop, Except.ok.injEq, Prod.mk.injEq] at h
      obtain ⟨h1, h2, _⟩ := h
      subst h1; subst h2
      exact ⟨rfl, fun i => by simp [reuseCount]⟩
  | cons c crest ih =>
      intro p ni lpi chain2 p2 lpi' h
      rw [arrayInsertLoop] at h
      rcases hcc : createChild p c with e | v
      · rw [hcc] at h; simp at h
      · rw [hcc] at h
        match v with
        | none => exact ih p (ni + 1) lpi chain2 p2 lpi' h
        | some nf =>
            simp only [] at h
            rcases hrec : arrayInsertLoop true p crest (ni + 1)
                (placeChild true nf lpi ni).2 with e | tup
            · rw [hrec] at h; simp at h
            · rw [hrec] at h
              obtain ⟨chain', p2', lpi''⟩ := tup
              simp only [Except.ok.injEq, Prod.mk.injEq] at h
              obtain ⟨h1, h2, _⟩ := h
              obtain ⟨hp, hz⟩ := ih p (ni + 1) (placeChild true nf lpi ni).2
                chain' p2' lpi'' hrec
              subst h1; subst h2
              refine ⟨hp, fun i => ?_⟩
              rw [reuseCount_cons, placeChild_alternate,
                createChild_alt p c nf hcc]
              simp [hz i]

/-- Phase 3b (keyed map): reused entries move from the map into the chain
one for one; nothing else changes. -/
theorem arrayMapLoop_ids (news : List Child) :
    ∀ (m : List (MapKey × OldFiber)) (p : RetFiber) (ni lpi : Nat)
      (chain2 : List NewFiber) (mRem : List (MapKey × OldFiber))
      (p2 : RetFiber) (lpi' : Nat),
      MapEntriesWF m →
      arrayMapLoop true m p news ni lpi = .ok (chain2, mRem, p2, lpi') →
      p2 = p ∧ MapEntriesWF mRem
      ∧ ∀ i, reuseCount chain2 i + mapValCount mRem i = mapValCount m i := by
  induction news with
  | nil =>
      intro m p ni lpi chain2 mRem p2 lpi' hwf h
      simp only [arrayMapLoop, Except.ok.injEq, Prod.mk.injEq] at h
      obtain ⟨h1, h2, h3, _⟩ := h
      subst h1; subst h2; subst h3
      exact ⟨rfl, hwf, fun i => by simp [reuseCount]⟩
  | cons c crest ih =>
      intro m p ni lpi chain2 mRem p2 lpi' hwf h
      rw [arrayMapLoop] at h
      rcases hum : updateFromMap m p ni c with e | v
      · rw [hum] at h; simp at h
      · rw [hum] at h
        match v with
        | none => exact ih m p (ni + 1) lpi chain2 mRem p2 lpi' hwf h
        | some nf =>
            cases halt : nf.alternate with
            | none =>
                simp only [halt, Option.isSome_none, Bool.true_and,
                  Bool.false_eq_true, if_false] at h
                rcases hrec : arrayMapLoop true m p crest (ni + 1)
                    (placeChild true nf lpi ni).2 with e | tup
                · rw [hrec] at h; simp at h
                · rw [hrec] at h
                  obtain ⟨chain', mRem', p2', lpi''⟩ := tup
                  simp only [Except.ok.injEq, Prod.mk.injEq] at h
                  obtain ⟨h1, h2, h3, _⟩ := h
                  obtain ⟨hp, hwf', hz⟩ := ih m p (ni + 1)
                    (placeChild true nf lpi ni).2 chain' mRem' p2' lpi'' hwf hrec
                  subst h1; subst h2; subst h3
                  refine ⟨hp, hwf', fun i => ?_⟩
                  rw [reuseCount_cons, placeChild_alternate, halt]
                  have := hz i
                  have h0 : (if (Option.map OldFiber.id
                      (none : Option OldFiber) == some i) = true
                      then 1 else 0) = 0 := rfl
                  rw [h0]
                  omega
            | some o =>
                rcases updateFromMap_alt m p ni c nf hwf hum with ha | ⟨o', ha, hget⟩
                · rw [halt] at ha; cases ha
                · rw [halt] at ha
                  injection ha with ha
                  subst ha
                  simp only [halt, Option.isSome_some, Bool.true_and,
                    if_true] at h
                  rcases hrec : arrayMapLoop true
                      (mapDelete m (match nf.key with
                        | none => MapKey.idx ni
                        | some k => MapKey.str k)) p crest (ni + 1)
                      (placeChild true nf lpi ni).2 with e | tup
                  · rw [hrec] at h; simp at h
                  · rw [hrec] at h
                    obtain ⟨chain', mRem', p2', lpi''⟩ := tup
                    simp only [Except.ok.injEq, Prod.mk.injEq] at h
                    obtain ⟨h1, h2, h3, _⟩ := h
                    obtain ⟨hp, hwf', hz⟩ := ih _ p (ni + 1)
                      (placeChild true nf lpi ni).2 chain' mRem' p2' lpi''
                      (MapEntriesWF_delete m _ hwf) hrec
                    subst h1; subst h2; subst h3
                    refine ⟨hp, hwf', fun i => ?_⟩
                    have hcount := mapGet_delete_countP m
                      (consumedMapKey nf ni) o hget (fun e => e.2.id == i)
                    have hkeyeq : (match nf.key with
                        | none => MapKey.idx ni
                        | some k => MapKey.str k) = consumedMapKey nf ni := rfl
                    rw [hkeyeq] at hz
                    rw [reuseCount_cons, placeChild_alternate, halt]
                    have := hz i
                    have hpred : (if (Option.map OldFiber.id
                        (some o : Option OldFiber) == some i) = true
                        then 1 else 0)
                      = (if (o.id == i) = true then 1 else 0) := rfl
                    rw [hpred]
                    unfold mapValCount at *
                    simp only at hcount
                    omega

/-- `mapRemainingChildren` with pairwise-distinct lookup keys is the plain
keyed listing of the remaining old fibers. -/
theorem mapRemainingChildren_go (l : List OldFiber) :
    ∀ m : List (MapKey × OldFiber),
      (∀ o ∈ l, mapKeyOf o ∉ m.map Prod.fst) → (l.map mapKeyOf).Nodup →
      l.foldl (fun m f => mapSet m (mapKeyOf f) f) m
        = m ++ l.map (fun o => (mapKeyOf o, o)) := by
  induction l with
  | nil => intro m _ _; simp
  | cons o rest ih =>
      intro m hdisj hnd
      have hnotin : mapKeyOf o ∉ m.map Prod.fst := hdisj o (by simp)
      have hany : (m.any (fun e => e.1 == mapKeyOf o)) = false := by
        rw [List.any_eq_false]
        intro e he hcontra
        simp only [beq_iff_eq] at hcontra
        exact hnotin (hcontra ▸ List.mem_map_of_mem Prod.fst he)
      have hset : mapSet m (mapKeyOf o) o = m ++ [(mapKeyOf o, o)] := by
        simp [mapSet, hany]
      simp only [List.foldl_cons, hset]
      have hnd' : (rest.map mapKeyOf).Nodup := by
        simpa using hnd.of_cons
      have hko : mapKeyOf o ∉ rest.map mapKeyOf := by
        have := hnd
        simp only [List.map_cons, List.nodup_cons] at this
        exact this.1
      have hdisj' : ∀ o' ∈ rest,
          mapKeyOf o' ∉ (m ++ [(mapKeyOf o, o)]).map Prod.fst := by
        intro o' ho' hmem
        simp only [List.map_append, List.mem_append] at hmem
        rcases hmem with hmem | hmem
        · exact hdisj o' (by simp [ho']) hmem
        · simp only [List.map_cons, List.map_nil, List.mem_singleton] at hmem
          exact hko (hmem ▸ List.mem_map_of_mem mapKeyOf ho')
      rw [ih (m ++ [(mapKeyOf o, o)]) hdisj' hnd']
      simp

theorem mapRemainingChildren_eq (l : List OldFiber)
    (h : (l.map mapKeyOf).Nodup) :
    mapRemainingChildren l = l.map (fun o => (mapKeyOf o, o)) := by
  unfold mapRemainingChildren
  rw [mapRemainingChildren_go l [] (by simp) h]
  simp

theorem mapRemainingChildren_wf (l : List OldFiber)
    (h : (l.map mapKeyOf).Nodup) :
    MapEntriesWF (mapRemainingChildren l) := by
  rw [mapRemainingChildren_eq l h]
  intro e he
  obtain ⟨o, _, rfl⟩ := List.mem_map.mp he
  rfl

theorem mapRemainingChildren_count (l : List OldFiber)
    (h : (l.map mapKeyOf).Nodup) (i : Nat) :
    mapValCount (mapRemainingChildren l) i = oldCount l i := by
  rw [mapRemainingChildren_eq l h]
  unfold mapValCount oldCount
  rw [List.countP_map]
  rfl

/-- The final sweep of the keyed phase deletes every leftover map value. -/
theorem foldl_deleteEntry_deletions (m : List (MapKey × OldFiber)) :
    ∀ p : RetFiber,
      (m.foldl (fun p e => deleteChild true p e.2) p).deletions
        = p.deletions ++ m.map (fun e => e.2) := by
  induction m with
  | nil => intro p; simp
  | cons e rest ih =>
      intro p
      simp only [List.foldl_cons, List.map_cons]
      rw [ih, deleteChild_deletions]
      simp

/-- The per-identity balance for a full `reconcileChildrenArray` call with
pairwise-distinct lookup keys: deletions plus reuses account for the whole
previous chain, each exactly once. -/
theorem reconcileChildrenArray_ids (p : RetFiber) (old : List OldFiber)
    (news : List Child) (chain : List NewFiber) (p' : RetFiber)
    (hkeys : (old.map mapKeyOf).Nodup)
    (hrun : reconcileChildrenArray true p old news = .ok (chain, p')) :
    ∀ i, delCount p' i + reuseCount chain i = delCount p i + oldCount old i := by
  rw [reconcileChildrenArray] at hrun
  rcases hscan : arrayScanLoop true p old news 0 0 with e | tup
  · rw [hscan] at hrun; simp at hrun
  · rw [hscan] at hrun
    obtain ⟨chain1, p1, newIdx, lpi, oldRem, newsRem⟩ := tup
    obtain ⟨heq, consumed, hcons⟩ :=
      arrayScanLoop_ids news p old 0 0 chain1 p1 newIdx lpi oldRem newsRem hscan
    have hremkeys : (oldRem.map mapKeyOf).Nodup := by
      rw [hcons, List.map_append] at hkeys
      exact hkeys.of_append_right
    match newsRem with
    | [] =>
        simp only [Except.ok.injEq, Prod.mk.injEq] at hrun
        obtain ⟨h1, h2⟩ := hrun
        subst h1; subst h2
        intro i
        rw [delCount_deleteRemaining]
        have := heq i
        omega
    | cr :: crest =>
        match oldRem with
        | [] =>
            simp only [] at hrun
            rcases hins : arrayInsertLoop true p1 (cr :: crest) newIdx lpi with
              e | tup2
            · rw [hins] at hrun; simp at hrun
            · rw [hins] at hrun
              obtain ⟨chain2, p2, lpi2⟩ := tup2
              simp only [Except.ok.injEq, Prod.mk.injEq] at hrun
              obtain ⟨h1, h2⟩ := hrun
              subst h1; subst h2
              obtain ⟨hp, hz⟩ := arrayInsertLoop_ids (cr :: crest) p1 newIdx lpi
                chain2 p2 lpi2 hins
              subst hp
              intro i
              rw [reuseCount_append]
              have := heq i
              have hz' := hz i
              have h0 : oldCount ([] : List OldFiber) i = 0 := rfl
              rw [h0] at this
              omega
        | or1 :: orrest =>
            simp only [] at hrun
            rcases hmap : arrayMapLoop true
                (mapRemainingChildren (or1 :: orrest)) p1 (cr :: crest) newIdx
                lpi with e | tup2
            · rw [hmap] at hrun; simp at hrun
            · rw [hmap] at hrun
              obtain ⟨chain2, mRem, p2, lpi2⟩ := tup2
              simp only [Except.ok.injEq, Prod.mk.injEq, if_true] at hrun
              obtain ⟨h1, h2⟩ := hrun
              subst h1; subst h2
              obtain ⟨hp, hwfrem, hz⟩ := arrayMapLoop_ids (cr :: crest)
                (mapRemainingChildren (or1 :: orrest)) p1 newIdx lpi
                chain2 mRem p2 lpi2
                (mapRemainingChildren_wf (or1 :: orrest) hremkeys) hmap
              subst hp
              intro i
              rw [reuseCount_append]
              have h3 := heq i
              have h4 := hz i
              rw [mapRemainingChildren_count (or1 :: orrest) hremkeys i] at h4
              have h5 : delCount ((mRem.foldl (fun p e => deleteChild true p e.2)
                  p2)) i = delCount p2 i + mapValCount mRem i := by
                unfold delCount mapValCount
                rw [foldl_deleteEntry_deletions, List.countP_append,
                  List.countP_map]
                rfl
              rw [h5]
              omega

/-- **C7 (counterexample).** With a duplicate explicit key among the previous
siblings the claim fails: for previous keys `[k, k]` (ids 1 and 2) and new
children `[element keyed x]`, the later duplicate wins the lookup map, so the
deletion list is `[2]` and the single produced fiber is fresh — the first
`k`-keyed sibling (id 1) is neither reused nor ever deleted. -/
theorem reconcileChildrenArray_duplicate_key_omits_deletion :
    (reconcileChildrenArray true ⟨100, 1, [], 0⟩
        [⟨1, .hostComponent, some "k", some (.host "div"), 0⟩,
         ⟨2, .hostComponent, some "k", some (.host "div"), 1⟩]
        [.element (some "x") (.host "div") 0 .nullChild]).toOption.map
      (fun r => (r.2.deletions.map OldFiber.id,
                 r.1.map (fun f => f.alternate.map OldFiber.id)))
      = some ([2], [none])
    ∧ (1 : Nat) ∉ [2] := by
  constructor
  · decide
  · decide

/-- **C7 (amended).** If the previous siblings' lookup keys (explicit key, or
index when keyless) are pairwise distinct — the map-collision-free case; a
duplicate key is the documented recoverable exception — then every previous
sibling not reused by any new item appears exactly once in the parent's
deletions array: none omitted, none duplicated. -/
theorem reconcileChildrenArray_deletion_completeness (p : RetFiber)
    (old : List OldFiber) (news : List Child) (chain : List NewFiber)
    (p' : RetFiber)
    (hdel : p.deletions = [])
    (hkeys : (old.map mapKeyOf).Nodup)
    (hids : (old.map OldFiber.id).Nodup)
    (hrun : reconcileChildrenArray true p old news = .ok (chain, p'))
    (o : OldFiber) (ho : o ∈ old)
    (hnr : ∀ f ∈ chain, f.alternate.map OldFiber.id ≠ some o.id) :
    (p'.deletions.filter (fun d => d.id == o.id)).length = 1 := by
  have hbal := reconcileChildrenArray_ids p old news chain p' hkeys hrun o.id
  have hdc : delCount p o.id = 0 := by
    unfold delCount
    rw [hdel]
    rfl
  have hoc : oldCount old o.id = 1 := by
    unfold oldCount
    have hcnt : (old.map OldFiber.id).count o.id = 1 :=
      List.count_eq_one_of_mem hids (List.mem_map_of_mem OldFiber.id ho)
    rw [List.count_eq_countP] at hcnt
    rw [← hcnt, List.countP_map]
    rfl
  have hrc : reuseCount chain o.id = 0 := by
    unfold reuseCount
    rw [List.countP_eq_zero]
    intro f hf hcontra
    simp only [beq_iff_eq] at hcontra
    exact hnr f hf hcontra
  have : delCount p' o.id = 1 := by omega
  rw [← this]
  unfold delCount
  rw [List.countP_eq_length_filter]

/-- Witness for amended C7: previous chain `[a]`, new children `[]` — the
single unmatched sibling is deleted exactly once. -/
theorem reconcileChildrenArray_deletion_completeness_witness :
    (((⟨9, 1, [⟨1, .hostComponent, some "a", some (.host "div"), 0⟩],
          ChildDeletion⟩ : RetFiber)).deletions.filter
        (fun d => d.id == 1)).length = 1 :=
  reconcileChildrenArray_deletion_completeness ⟨9, 1, [], 0⟩
    [⟨1, .hostComponent, some "a", some (.host "div"), 0⟩] [] []
    ⟨9, 1, [⟨1, .hostComponent, some "a", some (.host "div"), 0⟩],
      ChildDeletion⟩
    rfl (by decide) (by decide) rfl
    ⟨1, .hostComponent, some "a", some (.host "div"), 0⟩ (by decide)
    (by intro f hf; simp at hf)

/-! ## The hydration matcher (`ReactFiberHydrationContext.old.js`, v18.3.1)

The host-config adapter (`canHydrateInstance` …) is the external-markup
adapter of the spec's §6; it is carried as opaque function parameters.
`deleteHydratableInstance` schedules the excess markup node for deletion
against the current hydration parent; the dummy fiber it allocates is
represented by the recorded (parent id, instance) pair.  `__DEV__`
warnings are omitted. -/

/-- The slice of a fiber the hydration matcher reads and writes. -/
structure HFiber where
  id : Nat
  tag : FibTag
  mode : Nat
  flags : Nat
  typ : Nat
  text : String
  props : Nat
  stateNode : Option Nat
  dehydrated : Option Nat
  child : Option Nat

/-- The external-markup adapter (host config): claim tests and cursor
moves over external instances, which are identified by `Nat` handles. -/
structure HostConfigM where
  canHydrateInstance : Nat → Nat → Nat → Option Nat
  canHydrateTextInstance : Nat → String → Option Nat
  canHydrateSuspenseInstance : Nat → Option Nat
  getFirstHydratableChild : Nat → Option Nat
  getNextHydratableSibling : Nat → Option Nat

/-- The module-level hydration state (`isHydrating`,
`nextHydratableInstance`, `hydrationParentFiber`) together with the
deletions scheduled through `deleteHydratableInstance`. -/
structure HydrationState where
  isHydrating : Bool
  nextHydratableInstance : Option Nat
  hydrationParentFiber : Option Nat
  scheduledDeletions : List (Nat × Nat)

def shouldClientRenderOnMismatch (fiber : HFiber) : Bool :=
  (fiber.mode &&& ConcurrentMode != NoMode) && (fiber.flags &&& DidCapture == 0)

def hydrationMismatchError : String :=
  "Hydration failed because the initial UI does not match what was rendered on the server."

/-- `insertNonHydratedInstance`:
`fiber.flags = (fiber.flags & ~Hydrating) | Placement`. -/
def insertNonHydratedInstance (fiber : HFiber) : HFiber :=
  { fiber with flags := removeLanes fiber.flags Hydrating ||| Placement }

/-- `tryHydrate`: attempt to bind one render node to the external instance
at the cursor; on success the cursor enters the instance (host), is parked
(text: leaf) or defers descent (suspense: dehydrated fragment child). -/
def tryHydrate (A : HostConfigM) (hs : HydrationState) (fiber : HFiber)
    (nextInstance : Nat) : Bool × HydrationState × HFiber :=
  match fiber.tag with
  | .hostComponent =>
      match A.canHydrateInstance nextInstance fiber.typ fiber.props with
      | some inst =>
          (true,
           { hs with hydrationParentFiber := some fiber.id,
                     nextHydratableInstance := A.getFirstHydratableChild inst },
           { fiber with stateNode := some inst })
      | none => (false, hs, fiber)
  | .hostText =>
      match A.canHydrateTextInstance nextInstance fiber.text with
      | some textInst =>
          (true,
           { hs with hydrationParentFiber := some fiber.id,
                     nextHydratableInstance := none },
           { fiber with stateNode := some textInst })
      | none => (false, hs, fiber)
  | .suspenseComponent =>
      match A.canHydrateSuspenseInstance nextInstance with
      | some suspenseInst =>
          (true,
           { hs with hydrationParentFiber := some fiber.id,
                     nextHydratableInstance := none },
           { fiber with dehydrated := some suspenseInst,
                        child := some suspenseInst })
      | none => (false, hs, fiber)
  | _ => (false, hs, fiber)

/-- `tryToClaimNextHydratableInstance`.  The thrown hydration-mismatch error
is the `Except.error` case. -/
def tryToClaimNextHydratableInstance (A : HostConfigM) (hs : HydrationState)
    (fiber : HFiber) : Except String (HydrationState × HFiber) :=
  if !hs.isHydrating then .ok (hs, fiber)
  else
    match hs.nextHydratableInstance with
    | none =>
        if shouldClientRenderOnMismatch fiber then .error hydrationMismatchError
        else
          -- Nothing to hydrate. Make it an insertion and leave hydration mode.
          .ok ({ hs with isHydrating := false,
                         hydrationParentFiber := some fiber.id },
               insertNonHydratedInstance fiber)
    | some nextInstance =>
        let firstAttemptedInstance := nextInstance
        let r1 := tryHydrate A hs fiber nextInstance
        if r1.1 then .ok (r1.2.1, r1.2.2)
        else if shouldClientRenderOnMismatch fiber then
          .error hydrationMismatchError
        else
          -- Single-lookahead retry against the next sibling.
          let prevHydrationParentFiber := hs.hydrationParentFiber
          match A.getNextHydratableSibling firstAttemptedInstance with
          | none =>
              .ok ({ hs with isHydrating := false,
                             hydrationParentFiber := some fiber.id },
                   insertNonHydratedInstance fiber)
          | some nextInstance2 =>
              let r2 := tryHydrate A hs fiber nextInstance2
              if !r2.1 then
                .ok ({ hs with isHydrating := false,
                               hydrationParentFiber := some fiber.id },
                     insertNonHydratedInstance fiber)
              else
                -- The first instance was superfluous: schedule its deletion.
                .ok ({ r2.2.1 with scheduledDeletions :=
                         r2.2.1.scheduledDeletions ++
                           [(prevHydrationParentFiber.getD 0,
                             firstAttemptedInstance)] },
                     r2.2.2)

/-! ## Claim C8 -/

theorem or_and_eq_zero (a b c : Nat) (h1 : a &&& c = 0) (h2 : b &&& c = 0) :
    (a ||| b) &&& c = 0 := by
  apply Nat.eq_of_testBit_eq
  intro i
  have t1 := congrArg (fun n => n.testBit i) h1
  have t2 := congrArg (fun n => n.testBit i) h2
  simp only [Nat.testBit_and, Nat.testBit_or, Nat.zero_testBit] at *
  cases hc : c.testBit i
  · simp
  · rw [hc] at t1 t2
    simp only [Bool.and_true] at t1 t2
    simp [t1, t2]

theorem or_placement_and_ne_zero (x : Nat) : (x ||| Placement) &&& Placement ≠ 0 := by
  intro h
  have ht := congrArg (fun n => n.testBit 1) h
  simp only [Nat.testBit_and, Nat.testBit_or, Nat.zero_testBit] at ht
  rw [show Placement.testBit 1 = true from by decide] at ht
  simp at ht

/-- **C8 (counterexample).** In concurrent mode (and no `DidCapture`), an
exhausted cursor does not mark the node for insertion: the code throws the
hydration-mismatch error instead. -/
theorem tryToClaim_exhausted_concurrent_throws :
    tryToClaimNextHydratableInstance
        ⟨fun _ _ _ => none, fun _ _ => none, fun _ => none,
         fun _ => none, fun _ => none⟩
        ⟨true, none, some 0, []⟩
        ⟨1, .hostComponent, ConcurrentMode, 0, 5, "", 7, none, none, none⟩
      = .error hydrationMismatchError := rfl

/-- **C8 (amended).** While hydrating with an exhausted cursor, *provided the
strict concurrent-mismatch path is not taken*
(`shouldClientRenderOnMismatch` is false, e.g. legacy mode): the node is
not claimed but marked for fresh insertion — placement flag set, hydrating flag
cleared — hydration mode is turned off, and every subsequent claim attempt
is a no-op, so the rest of the subtree falls through to client-side
creation. -/
theorem tryToClaim_exhausted_inserts (A : HostConfigM) (hs : HydrationState)
    (fiber : HFiber)
    (hhyd : hs.isHydrating = true)
    (hnone : hs.nextHydratableInstance = none)
    (hmode : shouldClientRenderOnMismatch fiber = false) :
    tryToClaimNextHydratableInstance A hs fiber
      = .ok ({ hs with isHydrating := false,
                       hydrationParentFiber := some fiber.id },
             insertNonHydratedInstance fiber)
    ∧ (insertNonHydratedInstance fiber).flags &&& Placement ≠ 0
    ∧ (insertNonHydratedInstance fiber).flags &&& Hydrating = 0
    ∧ ∀ (B : HostConfigM) (g : HFiber),
        tryToClaimNextHydratableInstance B
          { hs with isHydrating := false,
                    hydrationParentFiber := some fiber.id } g
          = .ok ({ hs with isHydrating := false,
                           hydrationParentFiber := some fiber.id }, g) := by
  refine ⟨?_, ?_, ?_, ?_⟩
  · simp [tryToClaimNextHydratableInstance, hhyd, hnone, hmode]
  · exact or_placement_and_ne_zero _
  · exact or_and_eq_zero _ _ _ (removeLanes_and_self fiber.flags Hydrating)
      (by decide)
  · intro B g
    simp [tryToClaimNextHydratableInstance]

/-- Witness for amended C8: a legacy-mode host fiber at an exhausted
cursor. -/
theorem tryToClaim_exhausted_inserts_witness :
    tryToClaimNextHydratableInstance
        ⟨fun _ _ _ => none, fun _ _ => none, fun _ => none,
         fun _ => none, fun _ => none⟩
        ⟨true, none, some 0, []⟩
        ⟨1, .hostComponent, NoMode, Hydrating, 5, "", 7, none, none, none⟩
      = .ok (⟨false, none, some 1, []⟩,
             ⟨1, .hostComponent, NoMode,
               removeLanes Hydrating Hydrating ||| Placement, 5, "", 7,
               none, none, none⟩)
    ∧ (insertNonHydratedInstance
        ⟨1, .hostComponent, NoMode, Hydrating, 5, "", 7, none, none, none⟩).flags
        &&& Placement ≠ 0 := by
  have h := tryToClaim_exhausted_inserts
    ⟨fun _ _ _ => none, fun _ _ => none, fun _ => none,
     fun _ => none, fun _ => none⟩
    ⟨true, none, some 0, []⟩
    ⟨1, .hostComponent, NoMode, Hydrating, 5, "", 7, none, none, none⟩
    rfl rfl (by decide)
  exact ⟨h.1, h.2.1⟩

end ReactM
